import Mathlib

/-! PureCLIP: the zero-truncated binomial emission model (ZTBIN).

A shallow embedding of `density_functions_crosslink.h` (the density, its
parameter update, the parameter file, the order and convergence checks) and of
the option handling of `pureclip.cpp` (`parseCommandLine`, `doIt`).

Numeric model.  A `double` / `long double` holding a number is an exact
rational (`ℚ`).  A floating-point division whose divisor is zero has no value
in exact arithmetic (IEEE gives a NaN or an infinity); such results are
`none`, and `none` propagates through the sums and products that consume it.
`unsigned` is a natural number below `2 ^ 32`, `int` a 32-bit two's-complement
integer.  Statements made in exact arithmetic are about this model;
`getDensity_double` repeats the last statement of `getDensity` with every
operation rounded to `double`.
-/

namespace PureCLIP

/-! ## Machine integers and floating-point division -/

/-- Number of values of the C++ type `unsigned`. -/
def UNSIGNED_RANGE : Nat := 2 ^ 32

/-- Largest value of the C++ type `int`. -/
def INT_MAX : Nat := 2 ^ 31 - 1

/-- The cast `(int)u` of an `unsigned` value: values above `INT_MAX` wrap
to the negative half of the two's-complement range. -/
def toInt (u : Nat) : Int :=
  if u % UNSIGNED_RANGE ≤ INT_MAX then ((u % UNSIGNED_RANGE : Nat) : Int)
  else ((u % UNSIGNED_RANGE : Nat) : Int) - (UNSIGNED_RANGE : Int)

/-- Floating-point division `x / y` on numbers: `none` (NaN or an infinity)
when the divisor is zero. -/
def fdiv (x y : ℚ) : Option ℚ :=
  if y = 0 then none else some (x / y)

/-! ## ZTBIN -/

/-- The class `ZTBIN`: one probability parameter `p`. -/
structure ZTBIN where
  p : ℚ
deriving DecidableEq

/-- Modelled from the spec: `boost::math::pdf(binomial_distribution(N, p), k)`
is a library routine that is not among the sources.  It is the probability
`C(N,k) * p^k * (1-p)^(N-k)` of `k` successes in `N` trials; outside its domain
(`N < 0`, `p` outside `[0,1]`, `k > N`) it reports a domain error through its
error policy; the model takes the policy under which the result is the
not-a-number value that `getDensity` tests for, written `none`. -/
def binomial_pdf (N : Int) (p : ℚ) (k : Nat) : Option ℚ :=
  if N < 0 ∨ p < 0 ∨ 1 < p ∨ N < (k : Int) then none
  else some ((N.toNat.choose k : ℚ) * p ^ k * (1 - p) ^ (N.toNat - k))

/-- The method `ZTBIN::getDensity(k, n)`.
```
if (k == 0) return 0.0;
unsigned n2 = (n > k) ? (n) : (k);
boostBin = binomial_distribution((int)n2, this->p);
TDOUBLE res = pdf(boostBin, k);
if (std::isnan(res)) return 0.0;
return res * (TDOUBLE)(1.0/(1.0 - pow((1.0 - this->p), n2)));
```
The arithmetic of the last statement is exact here; `getDensity_double` below
rounds it. -/
def ZTBIN.getDensity (self : ZTBIN) (k n : Nat) : Option ℚ :=
  if k = 0 then some 0
  else
    let n2 := if n > k then n else k
    match binomial_pdf (toInt n2) self.p k with
    | none => some 0
    | some res => (fdiv 1 (1 - (1 - self.p) ^ n2)).map (fun f => res * f)

/-! ## `getDensity` in double precision -/

/-- Rounding of a number to the nearest integer, a tie going to the even
neighbour. -/
def roundHalfEven (x : ℚ) : Int :=
  if x - ⌊x⌋ < 1 / 2 then ⌊x⌋
  else if 1 / 2 < x - ⌊x⌋ then ⌊x⌋ + 1
  else if ⌊x⌋ % 2 = 0 then ⌊x⌋ else ⌊x⌋ + 1

/-- The binary exponent of a non-zero number: the `e` with `2^e ≤ |x| < 2^(e+1)`. -/
def binade (x : ℚ) : Int := Int.log 2 |x|

/-- The value of type `double` (IEEE 754 binary64, 53 significant bits) nearest
to the number `x`, ties to even: the result of a floating-point operation
whose exact result is `x`.  The exponent range is not bounded: overflow and
subnormal numbers are outside this model. -/
def roundToDouble (x : ℚ) : ℚ :=
  if x = 0 then 0
  else (roundHalfEven (x / 2 ^ (binade x - 52)) : ℚ) * 2 ^ (binade x - 52)

/-- The method `ZTBIN::getDensity(k, n)` for `TDOUBLE = double` with every
floating-point operation of the last statement rounded to `double`:
```
TDOUBLE res = boost::math::pdf(boostBin, k);
if (std::isnan(res)) return 0.0;
return res * (TDOUBLE)(1.0/(1.0 - pow((1.0 - this->p), n2)));
```
The library results `pdf` and `pow` are taken as the exact values rounded to
`double`.  The quotient `1.0/0.0` is an infinity and its product with `res` an
infinity or a NaN: `none`. -/
def ZTBIN.getDensity_double (self : ZTBIN) (k n : Nat) : Option ℚ :=
  if k = 0 then some 0
  else
    let n2 := if n > k then n else k
    match binomial_pdf (toInt n2) self.p k with
    | none => some 0
    | some res =>
      match fdiv 1 (roundToDouble (1 - roundToDouble (roundToDouble (1 - self.p) ^ n2))) with
      | none => none
      | some quotient => some (roundToDouble (roundToDouble res * roundToDouble quotient))

/-- Modelled from the spec: the class `Observations` is declared in `util.h`,
which is not among the sources.  Per the data model it holds, per position of
one covered interval, the truncation count `k` and the estimate `n` of the
number of trials, both non-negative integers, as parallel arrays. -/
structure Observations where
  truncCounts : List Nat
  nEstimates : List Nat
deriving DecidableEq

/-- The method `Observations::length()`: the number of positions of the interval. -/
def Observations.length (o : Observations) : Nat := o.truncCounts.length

/-- Modelled from the spec: `AppOptions` is declared in `util.h`, which is not
among the sources.  These are the fields read by the functions below:
`nThresholdForP` (option `-ntp`), `maxkNratio` (option `-mkn`) and
`bin_p_conv`, the convergence tolerance for `p`. -/
structure AppOptions where
  nThresholdForP : ℚ
  maxkNratio : ℚ
  bin_p_conv : ℚ
deriving DecidableEq

/-- The body of the innermost loop of `ZTBIN::updateP` at one position, acting
on the accumulators `(sum1, sum2)`.
```
if (nEstimates[t] >= options.nThresholdForP && truncCounts[t] > 0) {
    unsigned k = truncCounts[t];
    unsigned n = (nEstimates[t] > truncCounts[t]) ? nEstimates[t] : truncCounts[t];
    if (((double)(k) / (double)(n)) <= options.maxkNratio) {
        sum1 += statePosteriors[s][i][t] * ((double)(k - 1) / (double)(n - 1));
        sum2 += statePosteriors[s][i][t];
    }
}
```
`sum1` is `none` once a term that is not a number has been added to it; a
comparison with a NaN is false. -/
def updateP_body (options : AppOptions) (posterior : ℚ) (truncCount nEstimate : Nat)
    (acc : Option ℚ × ℚ) : Option ℚ × ℚ :=
  if (nEstimate : ℚ) ≥ options.nThresholdForP ∧ truncCount > 0 then
    let k := truncCount
    let n := if nEstimate > truncCount then nEstimate else truncCount
    match fdiv (k : ℚ) (n : ℚ) with
    | none => acc
    | some ratio =>
      if ratio ≤ options.maxkNratio then
        (acc.1.bind (fun sum1 =>
            (fdiv ((k - 1 : Nat) : ℚ) ((n - 1 : Nat) : ℚ)).map (fun e => sum1 + posterior * e)),
          acc.2 + posterior)
      else acc
  else acc

/-- The three nested loops of `ZTBIN::updateP` over the strands `s < 2`, the
intervals `i < length(setObs[s])` and the positions `t < setObs[s][i].length()`,
starting from `sum1 = sum2 = 0.0`.  Indexing outside an array (undefined in
C++) reads an empty array or 0. -/
def updateP_sums (statePosteriors : List (List (List ℚ)))
    (setObs : List (List Observations)) (options : AppOptions) : Option ℚ × ℚ :=
  (List.range 2).foldl (fun acc s =>
    (List.range (setObs.getD s []).length).foldl (fun acc i =>
      (List.range ((setObs.getD s []).getD i ⟨[], []⟩).length).foldl (fun acc t =>
        updateP_body options
          (((statePosteriors.getD s []).getD i []).getD t 0)
          (((setObs.getD s []).getD i ⟨[], []⟩).truncCounts.getD t 0)
          (((setObs.getD s []).getD i ⟨[], []⟩).nEstimates.getD t 0)
          acc) acc) acc) (some 0, 0)

/-- The method `ZTBIN::updateP`: the value it stores in `this->p`, namely `sum1 / sum2`
(`none` when that is not a number). -/
def ZTBIN.updateP (statePosteriors : List (List (List ℚ)))
    (setObs : List (List Observations)) (options : AppOptions) : Option ℚ :=
  (updateP_sums statePosteriors setObs options).1.bind
    (fun sum1 => fdiv sum1 (updateP_sums statePosteriors setObs options).2)

/-- The function `checkOrderBin1Bin2(bin1, bin2)`: the pair `(bin1, bin2)` after the call.
```
if (bin1.p > bin2.p) std::swap(bin1.p, bin2.p);
```
-/
def checkOrderBin1Bin2 (bin1 bin2 : ZTBIN) : ZTBIN × ZTBIN :=
  if bin1.p > bin2.p then ({ bin1 with p := bin2.p }, { bin2 with p := bin1.p })
  else (bin1, bin2)

/-! ## Vocabulary for stating the properties of `updateP` -/

/-- One position visited by the loops of `updateP`: its posterior weight, its
truncation count `k = truncCounts[t]` and its estimate `nEstimates[t]`. -/
structure Position where
  posterior : ℚ
  truncCount : Nat
  nEstimate : Nat
deriving DecidableEq

/-- The local variable `n` of `updateP` at a position: `max(nEstimate, k)`. -/
def Position.n (x : Position) : Nat := max x.nEstimate x.truncCount

/-- The positions in the order in which the loops of `updateP` visit them. -/
def positions (statePosteriors : List (List (List ℚ)))
    (setObs : List (List Observations)) : List Position :=
  (List.range 2).flatMap (fun s =>
    (List.range (setObs.getD s []).length).flatMap (fun i =>
      (List.range ((setObs.getD s []).getD i ⟨[], []⟩).length).map (fun t =>
        { posterior := ((statePosteriors.getD s []).getD i []).getD t 0
          truncCount := ((setObs.getD s []).getD i ⟨[], []⟩).truncCounts.getD t 0
          nEstimate := ((setObs.getD s []).getD i ⟨[], []⟩).nEstimates.getD t 0 })))

/-- The guards of `updateP` taken together: a position enters the sums when
`nEstimate >= nThresholdForP`, `k > 0` and `k / n <= maxkNratio`. -/
def included (options : AppOptions) (x : Position) : Bool :=
  decide ((x.nEstimate : ℚ) ≥ options.nThresholdForP ∧ x.truncCount > 0
    ∧ (x.truncCount : ℚ) / (x.n : ℚ) ≤ options.maxkNratio)

/-- The per-position estimate `(k-1)/(n-1)` as a number. -/
def estimate (x : Position) : ℚ := ((x.truncCount : ℚ) - 1) / ((x.n : ℚ) - 1)

/-- Sum of the posteriors of the included positions. -/
def weightSum (options : AppOptions) (l : List Position) : ℚ :=
  ((l.filter (included options)).map (fun x => x.posterior)).sum

/-- Sum of `posterior * (k-1)/(n-1)` over the included positions. -/
def weightedEstimateSum (options : AppOptions) (l : List Position) : ℚ :=
  ((l.filter (included options)).map (fun x => x.posterior * estimate x)).sum

/-- The inclusion rule in the words of the specification: a position is
included exactly when its `n` meets the minimum-N threshold
(`n >= nThresholdForP`) and its ratio `k/n` does not exceed `maxkNratio`. -/
def includedAsSpecified (options : AppOptions) (x : Position) : Bool :=
  decide ((x.n : ℚ) ≥ options.nThresholdForP
    ∧ (x.truncCount : ℚ) / (x.n : ℚ) ≤ options.maxkNratio)

/-- The value of `p` in the words of the specification: the sum of
`posterior * (k-1)/(n-1)` divided by the sum of the posteriors, both over the
positions that `includedAsSpecified` admits. -/
def updateP_asSpecified (options : AppOptions) (l : List Position) : Option ℚ :=
  fdiv ((l.filter (includedAsSpecified options)).map (fun x => x.posterior * estimate x)).sum
    ((l.filter (includedAsSpecified options)).map (fun x => x.posterior)).sum

/-- The loop body applied to a position. -/
def updateP_visit (options : AppOptions) (acc : Option ℚ × ℚ) (x : Position) : Option ℚ × ℚ :=
  updateP_body options x.posterior x.truncCount x.nEstimate acc

/-! ## Reading and writing the parameter file -/

/-- The call `std::getline(is, str, delim)` on a stream whose unread content is
`input`: it extracts characters up to and including the first `delim` (which
is dropped) or up to the end, and yields the extracted string and the unread
rest; it fails (`none`) when no character could be extracted. -/
def getline (delim : Char) : List Char → Option (List Char × List Char)
  | [] => none
  | c :: rest =>
    if c = delim then some ([], rest)
    else
      match getline delim rest with
      | none => some ([c], [])
      | some (str, unread) => some (c :: str, unread)

/-- The successive values of `lineBuffer` in `while (std::getline(ifs,
lineBuffer))` for a file with the given content: the content cut at each
newline, without a final empty piece. -/
def readLines : List Char → List (List Char)
  | [] => []
  | c :: rest =>
    if c = '\n' then [] :: readLines rest
    else
      match readLines rest with
      | [] => [[c]]
      | line :: more => (c :: line) :: more

/-- The string literal `"bin1.p"`. -/
def KEY_BIN1_P : List Char := ['b', 'i', 'n', '1', '.', 'p']

/-- The string literal `"bin2.p"`. -/
def KEY_BIN2_P : List Char := ['b', 'i', 'n', '2', '.', 'p']

/-- The comparison `value1.c_str() == "bin1.p"` of `loadBinParams`.  Both
operands have type `const char*`, so `==` compares two addresses: that of the
buffer of the local `std::string value1` and that of the string literal.  These
are distinct objects, hence the comparison is false whatever the characters
of `value1` are. -/
def cstrPointerEq (_value1 _literal : List Char) : Bool := false

/-- The messages `loadBinParams` writes to `std::cerr`. -/
inductive LoadError where
  | couldNotOpenFile
  | couldNotReadFirstValue
  | couldNotReadSecondValueBin1
  | couldNotReadSecondValueBin2
deriving DecidableEq

/-- What a call of `loadBinParams` leaves behind: the returned `bool`, the two
objects passed by reference, and the messages logged. -/
structure LoadResult where
  ok : Bool
  bin1 : ZTBIN
  bin2 : ZTBIN
  log : List LoadError
deriving DecidableEq

/-- The `while` loop of `loadBinParams` over the lines read from the file;
`strtod` is the library conversion of the second field.
```
std::stringstream ss(lineBuffer);
if (!ss.str().empty()) {
    if (!std::getline(ss, value1, '\t')) { std::cerr << ...; return false; }
    if (value1.c_str() == "bin1.p") {
        if (!std::getline(ss, value2, '\t')) { std::cerr << ...; return false; }
        bin1.p = std::strtod(value2.c_str(), NULL);
    } else if (value1.c_str() == "bin2.p") {
        if (!std::getline(ss, value2, '\t')) { std::cerr << ...; return false; }
        bin2.p = std::strtod(value2.c_str(), NULL);
    }
}
```
After the loop the function returns true. -/
def loadBinParams_loop (strtod : List Char → ℚ) :
    List (List Char) → ZTBIN → ZTBIN → List LoadError → LoadResult
  | [], bin1, bin2, log => ⟨true, bin1, bin2, log⟩
  | lineBuffer :: rest, bin1, bin2, log =>
    if lineBuffer ≠ [] then
      match getline '\t' lineBuffer with
      | none => ⟨false, bin1, bin2, log ++ [LoadError.couldNotReadFirstValue]⟩
      | some (value1, ss) =>
        if cstrPointerEq value1 KEY_BIN1_P then
          match getline '\t' ss with
          | none => ⟨false, bin1, bin2, log ++ [LoadError.couldNotReadSecondValueBin1]⟩
          | some (value2, _) =>
            loadBinParams_loop strtod rest { bin1 with p := strtod value2 } bin2 log
        else if cstrPointerEq value1 KEY_BIN2_P then
          match getline '\t' ss with
          | none => ⟨false, bin1, bin2, log ++ [LoadError.couldNotReadSecondValueBin2]⟩
          | some (value2, _) =>
            loadBinParams_loop strtod rest bin1 { bin2 with p := strtod value2 } log
        else loadBinParams_loop strtod rest bin1 bin2 log
    else loadBinParams_loop strtod rest bin1 bin2 log

/-- The function `loadBinParams(bin1, bin2, options)`.  The file named by
`options.inParFileName` is `none` when it cannot be opened and `some content`
otherwise.
```
std::ifstream ifs(toCString(options.inParFileName));
if (!ifs.good())
    std::cerr << "ERROR: Could not open file containing input parameters!\n";
while (std::getline(ifs, lineBuffer)) { ... }
return true;
```
On a stream that is not good every `std::getline` fails, so the loop body is
not entered. -/
def loadBinParams (strtod : List Char → ℚ) (bin1 bin2 : ZTBIN)
    (inParFile : Option (List Char)) : LoadResult :=
  match inParFile with
  | none => loadBinParams_loop strtod [] bin1 bin2 [LoadError.couldNotOpenFile]
  | some content => loadBinParams_loop strtod (readLines content) bin1 bin2 []

/-- Decimal digits of an `int`, as `operator<<` writes them. -/
def showInt (i : Int) : List Char :=
  if i < 0 then '-' :: Nat.toDigits 10 i.natAbs else Nat.toDigits 10 i.natAbs

/-- The function `printParams(out, bin, i)`: the content of `out` after the
call; `showDouble` is the library formatting of a `double`.
```
out << "bin" << i << ".p" << '\t' << bin.p << std::endl;
out << std::endl;
```
-/
def printParams (showDouble : ℚ → List Char) (out : List Char) (bin : ZTBIN) (i : Int) :
    List Char :=
  out ++ ['b', 'i', 'n'] ++ showInt i ++ ['.', 'p'] ++ ['\t'] ++ showDouble bin.p ++ ['\n']
    ++ ['\n']

/-- The key of a line of the parameter file: its first tab-separated field. -/
def lineKey (line : List Char) : Option (List Char) :=
  (getline '\t' line).map Prod.fst

/-- A parameter file has the key `key` when one of its non-empty lines has
`key` as its first tab-separated field. -/
def hasKey (key : List Char) (content : List Char) : Bool :=
  (readLines content).any (fun line => decide (lineKey line = some key))

/-! ## The command line (`pureclip.cpp`) -/

/-- One recognised option of the command line with its value.  The options
listed are those that `parseCommandLine` reads into the fields modelled in
`CommandLineOptions`; every other option of the program is `OTHER`. -/
inductive CmdArg where
  | IN (file : List Char)
  | BAI (file : List Char)
  | GENOME (file : List Char)
  | OUT (file : List Char)
  | IS (file : List Char)
  | IBAM (file : List Char)
  | IBAI (file : List Char)
  | FIS (file : List Char)
  | G1KMIN (v : ℚ)
  | G1KMAX (v : ℚ)
  | G2KMIN (v : ℚ)
  | G2KMAX (v : ℚ)
  | FK
  | BC (v : Int)
  | BDW (v : Int)
  | BDWN (v : Int)
  | NTP (v : ℚ)
  | NTP2 (v : ℚ)
  | ANTP
  | MTP (v : ℚ)
  | MKN (v : ℚ)
  | B1P (v : ℚ)
  | B2P (v : ℚ)
  | OTHER
deriving DecidableEq

/-- Value of an `-i` option. -/
def CmdArg.inValue : CmdArg → Option (List Char)
  | .IN f => some f
  | _ => none

/-- Value of a `-bai` option. -/
def CmdArg.baiValue : CmdArg → Option (List Char)
  | .BAI f => some f
  | _ => none

/-- Value of a `-g` option. -/
def CmdArg.genomeValue : CmdArg → Option (List Char)
  | .GENOME f => some f
  | _ => none

/-- Value of an `-o` option. -/
def CmdArg.outValue : CmdArg → Option (List Char)
  | .OUT f => some f
  | _ => none

/-- Value of an `-is` option. -/
def CmdArg.isValue : CmdArg → Option (List Char)
  | .IS f => some f
  | _ => none

/-- Value of an `-ibam` option. -/
def CmdArg.ibamValue : CmdArg → Option (List Char)
  | .IBAM f => some f
  | _ => none

/-- Value of an `-ibai` option. -/
def CmdArg.ibaiValue : CmdArg → Option (List Char)
  | .IBAI f => some f
  | _ => none

/-- Value of a `-fis` option. -/
def CmdArg.fisValue : CmdArg → Option (List Char)
  | .FIS f => some f
  | _ => none

/-- Value of a `-g1kmin` option. -/
def CmdArg.g1kminValue : CmdArg → Option ℚ
  | .G1KMIN v => some v
  | _ => none

/-- Value of a `-g1kmax` option. -/
def CmdArg.g1kmaxValue : CmdArg → Option ℚ
  | .G1KMAX v => some v
  | _ => none

/-- Value of a `-g2kmin` option. -/
def CmdArg.g2kminValue : CmdArg → Option ℚ
  | .G2KMIN v => some v
  | _ => none

/-- Value of a `-g2kmax` option. -/
def CmdArg.g2kmaxValue : CmdArg → Option ℚ
  | .G2KMAX v => some v
  | _ => none

/-- Value of a `-bc` option. -/
def CmdArg.bcValue : CmdArg → Option Int
  | .BC v => some v
  | _ => none

/-- Value of a `-bdw` option. -/
def CmdArg.bdwValue : CmdArg → Option Int
  | .BDW v => some v
  | _ => none

/-- Value of a `-bdwn` option. -/
def CmdArg.bdwnValue : CmdArg → Option Int
  | .BDWN v => some v
  | _ => none

/-- Value of an `-ntp` option. -/
def CmdArg.ntpValue : CmdArg → Option ℚ
  | .NTP v => some v
  | _ => none

/-- Value of an `-ntp2` option. -/
def CmdArg.ntp2Value : CmdArg → Option ℚ
  | .NTP2 v => some v
  | _ => none

/-- Value of an `-mtp` option. -/
def CmdArg.mtpValue : CmdArg → Option ℚ
  | .MTP v => some v
  | _ => none

/-- Value of an `-mkn` option. -/
def CmdArg.mknValue : CmdArg → Option ℚ
  | .MKN v => some v
  | _ => none

/-- Value of a `-b1p` option. -/
def CmdArg.b1pValue : CmdArg → Option ℚ
  | .B1P v => some v
  | _ => none

/-- Value of a `-b2p` option. -/
def CmdArg.b2pValue : CmdArg → Option ℚ
  | .B2P v => some v
  | _ => none

/-- The values given on the command line for the option selected by `sel`, in
the order in which they were given. -/
def optionValues {α : Type} (sel : CmdArg → Option α) (cl : List CmdArg) : List α :=
  cl.filterMap sel

/-- Modelled from the spec: `seqan::getOptionValueCount(parser, name)` is a
library routine that is not among the sources: the number of values given for
the option. -/
def getOptionValueCount {α : Type} (sel : CmdArg → Option α) (cl : List CmdArg) : Nat :=
  (optionValues sel cl).length

/-- Modelled from the spec: `seqan::getOptionValue(val, parser, name)` is a
library routine that is not among the sources.  It stores in `val` the value
given for the option (the last one when the option is repeated) and leaves
`val` as it is when the option was not given; this is what lets a preset be
overwritten afterwards. -/
def getOptionValue {α : Type} (val : α) (sel : CmdArg → Option α) (cl : List CmdArg) : α :=
  (optionValues sel cl).getLast?.getD val

/-- Modelled from the spec: `seqan::isSet(parser, name)` for a flag, a library
routine that is not among the sources: whether the flag was given. -/
def isSet (flag : CmdArg) (cl : List CmdArg) : Bool :=
  decide (flag ∈ cl)

/-- The values of `seqan::ArgumentParser::ParseResult`. -/
inductive ParseResult where
  | PARSE_OK
  | PARSE_ERROR
  | PARSE_HELP
  | PARSE_VERSION
deriving DecidableEq

/-- The value ranges declared with `setMinValue` / `setMaxValue`:
`bc` in `[0,1]`, `bdw` and `bdwn` in `[1,500]`, `g1kmin >= 1.5`, `mkn` in
`[0.5,1.5]`. -/
def CmdArg.inRange : CmdArg → Bool
  | .BC v => decide (0 ≤ v ∧ v ≤ 1)
  | .BDW v => decide (1 ≤ v ∧ v ≤ 500)
  | .BDWN v => decide (1 ≤ v ∧ v ≤ 500)
  | .G1KMIN v => decide ((3 / 2 : ℚ) ≤ v)
  | .MKN v => decide ((1 / 2 : ℚ) ≤ v ∧ v ≤ 3 / 2)
  | _ => true

/-- Modelled from the spec: `seqan::parse(parser, argc, argv)` is a library
routine that is not among the sources.  On a command line made of recognised
options it reports `PARSE_ERROR` when one of the options declared with
`setRequired` (`in`, `bai`, `genome`, `out`) is missing or a value lies outside
its declared range, and `PARSE_OK` otherwise. -/
def parse (cl : List CmdArg) : ParseResult :=
  if 0 < getOptionValueCount CmdArg.inValue cl ∧ 0 < getOptionValueCount CmdArg.baiValue cl
      ∧ 0 < getOptionValueCount CmdArg.genomeValue cl
      ∧ 0 < getOptionValueCount CmdArg.outValue cl
      ∧ cl.all CmdArg.inRange = true then
    ParseResult.PARSE_OK
  else ParseResult.PARSE_ERROR

/-- Modelled from the spec: `AppOptions` is declared in `util.h`, which is not
among the sources.  These are the fields that `parseCommandLine` fills from the
options of `CmdArg` and that `doIt` overwrites; the fields filled from the
other options are left out. -/
structure CommandLineOptions where
  bamFileNames : List (List Char)
  baiFileNames : List (List Char)
  refFileName : List Char
  outFileName : List Char
  rpkmFileName : List Char
  inputBamFileName : List Char
  inputBaiFileName : List Char
  useCov_RPKM : Bool
  fimoFileName : List Char
  useFimoScore : Bool
  g1_kMin : ℚ
  g1_kMax : ℚ
  g2_kMin : ℚ
  g2_kMax : ℚ
  g1_k_le_g2_k : Bool
  bandwidth : Int
  bandwidthN : Int
  get_nThreshold : Bool
  nThresholdForP : ℚ
  nThresholdForTransP : ℚ
  minTransProbCS : ℚ
  maxkNratio : ℚ
  p1 : ℚ
  p2 : ℚ
deriving DecidableEq

/-- The statements of `parseCommandLine` from `resize(options.bamFileNames,
repNo)` to the reading of `-ibai`.
```
for (unsigned i = 0; i < repNo; ++i) {
    getOptionValue(options.bamFileNames[i], parser, "in", i);
    getOptionValue(options.baiFileNames[i], parser, "bai", i);
}
getOptionValue(options.refFileName, parser, "genome");
getOptionValue(options.outFileName, parser, "out");
getOptionValue(options.rpkmFileName, parser, "is");
getOptionValue(options.inputBamFileName, parser, "ibam");
getOptionValue(options.inputBaiFileName, parser, "ibai");
```
-/
def readFileOptions (options : CommandLineOptions) (cl : List CmdArg) : CommandLineOptions :=
  { options with
    bamFileNames := optionValues CmdArg.inValue cl
    baiFileNames := (optionValues CmdArg.baiValue cl).take (getOptionValueCount CmdArg.inValue cl)
    refFileName := getOptionValue options.refFileName CmdArg.genomeValue cl
    outFileName := getOptionValue options.outFileName CmdArg.outValue cl
    rpkmFileName := getOptionValue options.rpkmFileName CmdArg.isValue cl
    inputBamFileName := getOptionValue options.inputBamFileName CmdArg.ibamValue cl
    inputBaiFileName := getOptionValue options.inputBaiFileName CmdArg.ibaiValue cl }

/-- The condition under which `parseCommandLine` rejects the covariate files.
```
(options.rpkmFileName != "" && options.inputBamFileName != "") ||
(options.rpkmFileName != "" && options.inputBaiFileName != "") ||
(options.inputBamFileName != "" && options.inputBaiFileName == "") ||
(options.inputBamFileName == "" && options.inputBaiFileName != "")
```
-/
def covariateFilesConflict (options : CommandLineOptions) : Bool :=
  decide ((options.rpkmFileName ≠ [] ∧ options.inputBamFileName ≠ [])
    ∨ (options.rpkmFileName ≠ [] ∧ options.inputBaiFileName ≠ [])
    ∨ (options.inputBamFileName ≠ [] ∧ options.inputBaiFileName = [])
    ∨ (options.inputBamFileName = [] ∧ options.inputBaiFileName ≠ []))

/-- The statements of `parseCommandLine` after the covariate check that assign
the modelled fields, in the order of the source.
```
if (options.rpkmFileName != "" || options.inputBamFileName != "") options.useCov_RPKM = true;
getOptionValue(options.fimoFileName, parser, "fis");
if (options.fimoFileName != "") options.useFimoScore = true;
getOptionValue(options.g1_kMin, parser, "g1kmin");   // likewise g1kmax, g2kmin, g2kmax
if (isSet(parser, "fk")) options.g1_k_le_g2_k = false;
unsigned bc = 0;
getOptionValue(bc, parser, "bc");
if (bc == 1) {
    options.bandwidthN = 100; options.get_nThreshold = true;
    options.p1 = 0.01; options.p2 = 0.1;
}   // can be overwritten afterwards ....
getOptionValue(options.bandwidth, parser, "bdw");
getOptionValue(options.bandwidthN, parser, "bdwn");
if (options.bandwidthN == 0) options.bandwidthN = options.bandwidth;
getOptionValue(options.nThresholdForP, parser, "ntp");
getOptionValue(options.nThresholdForTransP, parser, "ntp2");
if (isSet(parser, "antp")) options.get_nThreshold = true;
getOptionValue(options.minTransProbCS, parser, "mtp");
getOptionValue(options.maxkNratio, parser, "mkn");
getOptionValue(options.p1, parser, "b1p");
getOptionValue(options.p2, parser, "b2p");
```
-/
def readSettings (options : CommandLineOptions) (cl : List CmdArg) : CommandLineOptions :=
  let fimoFileName := getOptionValue options.fimoFileName CmdArg.fisValue cl
  let bc : Int := getOptionValue 0 CmdArg.bcValue cl
  let bandwidth := getOptionValue options.bandwidth CmdArg.bdwValue cl
  let bandwidthN := getOptionValue (if bc = 1 then 100 else options.bandwidthN) CmdArg.bdwnValue cl
  { options with
    useCov_RPKM :=
      if options.rpkmFileName ≠ [] ∨ options.inputBamFileName ≠ [] then true
      else options.useCov_RPKM
    fimoFileName := fimoFileName
    useFimoScore := if fimoFileName ≠ [] then true else options.useFimoScore
    g1_kMin := getOptionValue options.g1_kMin CmdArg.g1kminValue cl
    g1_kMax := getOptionValue options.g1_kMax CmdArg.g1kmaxValue cl
    g2_kMin := getOptionValue options.g2_kMin CmdArg.g2kminValue cl
    g2_kMax := getOptionValue options.g2_kMax CmdArg.g2kmaxValue cl
    g1_k_le_g2_k := if isSet CmdArg.FK cl then false else options.g1_k_le_g2_k
    bandwidth := bandwidth
    bandwidthN := if bandwidthN = 0 then bandwidth else bandwidthN
    get_nThreshold :=
      if isSet CmdArg.ANTP cl then true
      else if bc = 1 then true else options.get_nThreshold
    nThresholdForP := getOptionValue options.nThresholdForP CmdArg.ntpValue cl
    nThresholdForTransP := getOptionValue options.nThresholdForTransP CmdArg.ntp2Value cl
    minTransProbCS := getOptionValue options.minTransProbCS CmdArg.mtpValue cl
    maxkNratio := getOptionValue options.maxkNratio CmdArg.mknValue cl
    p1 := getOptionValue (if bc = 1 then 1 / 100 else options.p1) CmdArg.b1pValue cl
    p2 := getOptionValue (if bc = 1 then 1 / 10 else options.p2) CmdArg.b2pValue cl }

/-- The function `parseCommandLine(options, argc, argv)` on the fields of
`CommandLineOptions`: the returned `ParseResult` and `options` after the call.
```
ArgumentParser::ParseResult res = parse(parser, argc, argv);
if (res != ArgumentParser::PARSE_OK) return res;
unsigned repNo = getOptionValueCount(parser, "in");
if (repNo != getOptionValueCount(parser, "bai")) {
    std::cout << "ERROR: currently only support for <= 2 replicates!" << std::endl;
    return ArgumentParser::PARSE_ERROR;
}
if (repNo != getOptionValueCount(parser, "bai")) {
    std::cout << "ERROR: number of BAI files must be the same as of BAM files!" << std::endl;
    return ArgumentParser::PARSE_ERROR;
}
... readFileOptions ...
if (covariate files conflict) return ArgumentParser::PARSE_ERROR;
... readSettings ...
return ArgumentParser::PARSE_OK;
```
-/
def parseCommandLine (options : CommandLineOptions) (cl : List CmdArg) :
    ParseResult × CommandLineOptions :=
  let res := parse cl
  if res ≠ ParseResult.PARSE_OK then (res, options)
  else
    let repNo := getOptionValueCount CmdArg.inValue cl
    if repNo ≠ getOptionValueCount CmdArg.baiValue cl then (ParseResult.PARSE_ERROR, options)
    else if repNo ≠ getOptionValueCount CmdArg.baiValue cl then
      (ParseResult.PARSE_ERROR, options)
    else
      let options := readFileOptions options cl
      if covariateFilesConflict options then (ParseResult.PARSE_ERROR, options)
      else (ParseResult.PARSE_OK, readSettings options cl)

/-- The options that `doIt(options)` hands to the fit: in the branch without
covariates it first overwrites the upper bound of the shape of the
non-enriched gamma distribution.
```
if (options.useCov_RPKM) { ... }
else { options.g1_kMax = 1.0; ... }
```
-/
def doIt_options (options : CommandLineOptions) : CommandLineOptions :=
  if options.useCov_RPKM then options else { options with g1_kMax := 1 }

/-- None of the options `-is`, `-ibam`, `-ibai`, `-bc`, `-bdwn`, `-b1p`, `-b2p`,
each of which takes one value, is given more than once. -/
def givenAtMostOnce (cl : List CmdArg) : Prop :=
  (optionValues CmdArg.isValue cl).length ≤ 1 ∧ (optionValues CmdArg.ibamValue cl).length ≤ 1
    ∧ (optionValues CmdArg.ibaiValue cl).length ≤ 1
    ∧ (optionValues CmdArg.bcValue cl).length ≤ 1
    ∧ (optionValues CmdArg.bdwnValue cl).length ≤ 1
    ∧ (optionValues CmdArg.b1pValue cl).length ≤ 1
    ∧ (optionValues CmdArg.b2pValue cl).length ≤ 1

/-- The options of a run that starts without covariates: no covariate file
name is set and `useCov_RPKM` is false, as in a freshly constructed value. -/
def withoutCovariates (options : CommandLineOptions) : CommandLineOptions :=
  { options with
    rpkmFileName := []
    inputBamFileName := []
    inputBaiFileName := []
    useCov_RPKM := false }

/-- A sample value of the options before `parseCommandLine`, with the defaults
that the help texts state (`-bdw 50`, `-bdwn` as `-bdw`, `-b1p 0.01`,
`-b2p 0.15`, `-ntp 10`, `-ntp2 0`, `-mkn 1.0`, `-mtp 0.0001`), no file names, no
covariates, and the shape bounds `[1, 10]` for both gamma distributions. -/
def sampleOptions : CommandLineOptions where
  bamFileNames := []
  baiFileNames := []
  refFileName := []
  outFileName := []
  rpkmFileName := []
  inputBamFileName := []
  inputBaiFileName := []
  useCov_RPKM := false
  fimoFileName := []
  useFimoScore := false
  g1_kMin := 1
  g1_kMax := 10
  g2_kMin := 1
  g2_kMax := 10
  g1_k_le_g2_k := true
  bandwidth := 50
  bandwidthN := 0
  get_nThreshold := false
  nThresholdForP := 10
  nThresholdForTransP := 0
  minTransProbCS := 1 / 10000
  maxkNratio := 1
  p1 := 1 / 100
  p2 := 15 / 100

/-! ## Facts about the machine-integer and division helpers -/

theorem toInt_of_le_INT_MAX (u : Nat) (h : u ≤ INT_MAX) : toInt u = (u : Int) := by
  have hlt : u < UNSIGNED_RANGE := by
    simp only [INT_MAX, UNSIGNED_RANGE] at *
    omega
  simp [toInt, Nat.mod_eq_of_lt hlt, h]

theorem toInt_neg_of_gt_INT_MAX (u : Nat) (h : INT_MAX < u) (hr : u < UNSIGNED_RANGE) :
    toInt u < 0 := by
  have hnle : ¬ u ≤ INT_MAX := not_le.mpr h
  simp only [toInt, Nat.mod_eq_of_lt hr, hnle, if_false]
  have : (u : Int) < (UNSIGNED_RANGE : Int) := by exact_mod_cast hr
  linarith

theorem n2_eq_max (n k : Nat) : (if n > k then n else k) = max n k := by
  by_cases h : n > k
  · simp [h, Nat.max_eq_left (Nat.le_of_lt h)]
  · simp [h, Nat.max_eq_right (Nat.le_of_not_lt h)]

theorem pow_lt_one_of_unit (q : ℚ) (m : Nat) (hq0 : 0 < q) (hq1 : q < 1) (hm : 1 ≤ m) :
    q ^ m < 1 :=
  pow_lt_one₀ hq0.le hq1 (by omega)

/-- Inside the `int` range and for a probability in `(0,1)`, `getDensity` is
the binomial probability times the zero-truncation factor. -/
theorem getDensity_of_le_INT_MAX (b : ZTBIN) (k n : Nat) (hk : 1 ≤ k)
    (hm : max n k ≤ INT_MAX) (hp0 : 0 < b.p) (hp1 : b.p < 1) :
    b.getDensity k n =
      some (((max n k).choose k : ℚ) * b.p ^ k * (1 - b.p) ^ (max n k - k)
        * (1 / (1 - (1 - b.p) ^ (max n k)))) := by
  have hk0 : k ≠ 0 := by omega
  have hkm : k ≤ max n k := le_max_right n k
  have hq : (1 - b.p) ^ (max n k) < 1 :=
    pow_lt_one_of_unit _ _ (by linarith) (by linarith) (le_trans hk hkm)
  have hne : (1 - (1 - b.p) ^ (max n k)) ≠ 0 := by linarith
  have hdom : ¬ (((max n k : Nat) : Int) < 0 ∨ b.p < 0 ∨ 1 < b.p
      ∨ ((max n k : Nat) : Int) < (k : Int)) := by
    intro h
    rcases h with h | h | h | h
    · exact absurd h (not_lt.mpr (Int.ofNat_nonneg _))
    · linarith
    · linarith
    · exact absurd (by exact_mod_cast h : max n k < k) (not_lt.mpr hkm)
  unfold ZTBIN.getDensity
  rw [if_neg hk0]
  simp only [n2_eq_max, toInt_of_le_INT_MAX _ hm, binomial_pdf, if_neg hdom, fdiv, if_neg hne,
    Int.toNat_ofNat, Option.map_some']

/-- Above the `int` range the cast is negative, the library reports a domain
error and `getDensity` returns 0. -/
theorem getDensity_of_gt_INT_MAX (b : ZTBIN) (k n : Nat) (hk : 1 ≤ k)
    (hm : INT_MAX < max n k) (hr : max n k < UNSIGNED_RANGE) :
    b.getDensity k n = some 0 := by
  have hk0 : k ≠ 0 := by omega
  have hneg := toInt_neg_of_gt_INT_MAX _ hm hr
  unfold ZTBIN.getDensity
  rw [if_neg hk0]
  simp only [n2_eq_max, binomial_pdf, hneg, true_or, if_true]

/-- The binomial probabilities of `1..n` successes add up to `1 - (1-p)^n`. -/
theorem binomial_sum_Icc (p : ℚ) (n : Nat) :
    ∑ k in Finset.Icc 1 n, ((n.choose k : ℚ) * p ^ k * (1 - p) ^ (n - k))
      = 1 - (1 - p) ^ n := by
  have h := add_pow p (1 - p) n
  rw [show p + (1 - p) = 1 by ring, one_pow, Finset.range_eq_Ico,
    Finset.sum_eq_sum_Ico_succ_bot (Nat.succ_pos n), Nat.Ico_succ_right] at h
  simp only [pow_zero, one_mul, Nat.sub_zero, Nat.choose_zero_right, Nat.cast_one, mul_one,
    zero_add] at h
  have h2 : ∑ k in Finset.Icc 1 n, ((n.choose k : ℚ) * p ^ k * (1 - p) ^ (n - k))
      = ∑ k in Finset.Icc 1 n, p ^ k * (1 - p) ^ (n - k) * (n.choose k : ℚ) :=
    Finset.sum_congr rfl (fun k _ => by ring)
  rw [h2]
  linarith

/-! ## The loops of `updateP` as one pass over the visited positions -/

theorem foldl_flatMap_eq {α β γ : Type} (g : γ → β → γ) (f : α → List β) (l : List α) (c : γ) :
    (l.flatMap f).foldl g c = l.foldl (fun acc a => (f a).foldl g acc) c := by
  induction l generalizing c with
  | nil => rfl
  | cons a t ih => rw [List.flatMap_cons, List.foldl_append, ih, List.foldl_cons]

/-- The nested loops visit exactly the list `positions`, in order. -/
theorem updateP_sums_eq_foldl (statePosteriors : List (List (List ℚ)))
    (setObs : List (List Observations)) (options : AppOptions) :
    updateP_sums statePosteriors setObs options
      = (positions statePosteriors setObs).foldl (updateP_visit options) (some 0, 0) := by
  unfold updateP_sums positions
  rw [foldl_flatMap_eq]
  refine congrArg (fun f => List.foldl f (some 0, 0) (List.range 2)) ?_
  funext acc s
  rw [foldl_flatMap_eq]
  refine congrArg (fun f => List.foldl f acc (List.range (setObs.getD s []).length)) ?_
  funext acc i
  rw [List.foldl_map]
  rfl

theorem n_pos_of_truncCount_pos (x : Position) (hk : 0 < x.truncCount) : 0 < x.n :=
  lt_of_lt_of_le hk (le_max_right _ _)

/-- A position that passes the guards adds its term to both sums. -/
theorem updateP_visit_included (options : AppOptions) (acc : Option ℚ × ℚ) (x : Position)
    (h : included options x = true) :
    updateP_visit options acc x
      = (acc.1.bind (fun sum1 =>
            (fdiv ((x.truncCount - 1 : Nat) : ℚ) ((x.n - 1 : Nat) : ℚ)).map
              (fun e => sum1 + x.posterior * e)),
          acc.2 + x.posterior) := by
  simp only [included, decide_eq_true_eq] at h
  obtain ⟨h1, h2, h3⟩ := h
  have hn : (x.n : ℚ) ≠ 0 := by
    have := n_pos_of_truncCount_pos x h2
    exact_mod_cast this.ne'
  unfold Position.n at hn h3
  simp only [updateP_visit, updateP_body, n2_eq_max, Position.n, h1, h2, and_self, if_true,
    fdiv, if_neg hn, h3]

/-- A position that fails a guard leaves both sums as they are. -/
theorem updateP_visit_excluded (options : AppOptions) (acc : Option ℚ × ℚ) (x : Position)
    (h : included options x = false) :
    updateP_visit options acc x = acc := by
  simp only [included, decide_eq_false_iff_not] at h
  unfold updateP_visit updateP_body
  by_cases hg : (x.nEstimate : ℚ) ≥ options.nThresholdForP ∧ x.truncCount > 0
  · have hn : (x.n : ℚ) ≠ 0 := by
      have := n_pos_of_truncCount_pos x hg.2
      exact_mod_cast this.ne'
    have h3 : ¬ (x.truncCount : ℚ) / (x.n : ℚ) ≤ options.maxkNratio :=
      fun h3 => h ⟨hg.1, hg.2, h3⟩
    unfold Position.n at hn h3
    simp only [hg, and_self, if_true, n2_eq_max, fdiv, if_neg hn, if_neg h3]
  · rw [if_neg hg]

/-- The result of the pass depends only on the positions that pass the guards. -/
theorem foldl_updateP_visit_filter (options : AppOptions) (l : List Position)
    (acc : Option ℚ × ℚ) :
    l.foldl (updateP_visit options) acc
      = (l.filter (included options)).foldl (updateP_visit options) acc := by
  induction l generalizing acc with
  | nil => rfl
  | cons x t ih =>
    by_cases hx : included options x = true
    · rw [List.filter_cons_of_pos hx, List.foldl_cons, List.foldl_cons, ih]
    · have hx' : included options x = false := by simpa using hx
      rw [List.filter_cons_of_neg hx, List.foldl_cons, updateP_visit_excluded _ _ _ hx', ih]

/-- For an included position with `n ≥ 2` the quotient `(k-1)/(n-1)` of the
code is the number `estimate`. -/
theorem fdiv_estimate (options : AppOptions) (x : Position)
    (h : included options x = true) (hn : 2 ≤ x.n) :
    fdiv ((x.truncCount - 1 : Nat) : ℚ) ((x.n - 1 : Nat) : ℚ) = some (estimate x) := by
  simp only [included, decide_eq_true_eq] at h
  have hk : 1 ≤ x.truncCount := h.2.1
  have hn1 : 1 ≤ x.n := by omega
  have hne : ((x.n - 1 : Nat) : ℚ) ≠ 0 := by
    have : x.n - 1 ≠ 0 := by omega
    exact_mod_cast this
  rw [Nat.cast_sub hn1, Nat.cast_one] at hne
  simp only [fdiv, estimate, Nat.cast_sub hk, Nat.cast_sub hn1, Nat.cast_one, if_neg hne]

/-- When every included position has `n ≥ 2`, the pass adds to `sum1` the
weighted estimates and to `sum2` the weights of the included positions. -/
theorem foldl_updateP_visit_sums (options : AppOptions) (l : List Position)
    (hn : ∀ x ∈ l, included options x = true → 2 ≤ x.n) (s1 s2 : ℚ) :
    l.foldl (updateP_visit options) (some s1, s2)
      = (some (s1 + weightedEstimateSum options l), s2 + weightSum options l) := by
  induction l generalizing s1 s2 with
  | nil => simp [weightedEstimateSum, weightSum]
  | cons x t ih =>
    have ht : ∀ y ∈ t, included options y = true → 2 ≤ y.n :=
      fun y hy => hn y (List.mem_cons_of_mem x hy)
    by_cases hx : included options x = true
    · rw [List.foldl_cons, updateP_visit_included _ _ _ hx,
        fdiv_estimate options x hx (hn x (List.mem_cons_self x t) hx)]
      simp only [Option.some_bind, Option.map_some']
      rw [ih ht]
      simp only [weightedEstimateSum, weightSum, List.filter_cons_of_pos hx, List.map_cons,
        List.sum_cons]
      rw [add_assoc, add_assoc]
    · have hx' : included options x = false := by simpa using hx
      rw [List.foldl_cons, updateP_visit_excluded _ _ _ hx', ih ht]
      simp only [weightedEstimateSum, weightSum, List.filter_cons_of_neg hx]

/-- When every included position has `n ≥ 2`, `updateP` stores the quotient of
the two sums over the included positions. -/
theorem updateP_eq_fdiv_sums (statePosteriors : List (List (List ℚ)))
    (setObs : List (List Observations)) (options : AppOptions)
    (hn : ∀ x ∈ positions statePosteriors setObs, included options x = true → 2 ≤ x.n) :
    ZTBIN.updateP statePosteriors setObs options
      = fdiv (weightedEstimateSum options (positions statePosteriors setObs))
          (weightSum options (positions statePosteriors setObs)) := by
  unfold ZTBIN.updateP
  rw [updateP_sums_eq_foldl, foldl_updateP_visit_sums options _ hn]
  simp only [Option.some_bind, zero_add]

/-! ## `getDensity` -/

/-- C1. For `k ≥ 1`, any `n` (both of type `unsigned`) and `p` in `(0,1)`, when
the library density is a number, `getDensity(k, n)` is the binomial probability
`C(n',k) p^k (1-p)^(n'-k)` divided by `1 - (1-p)^n'`, with `n' = max(n, k)`. -/
theorem getDensity_eq_truncated_binomial (b : ZTBIN) (k n : Nat)
    (hk : 1 ≤ k) (hkr : k < UNSIGNED_RANGE) (hnr : n < UNSIGNED_RANGE)
    (hp0 : 0 < b.p) (hp1 : b.p < 1)
    (hpdf : binomial_pdf (toInt (max n k)) b.p k ≠ none) :
    binomial_pdf (toInt (max n k)) b.p k
        = some (((max n k).choose k : ℚ) * b.p ^ k * (1 - b.p) ^ (max n k - k))
      ∧ b.getDensity k n
        = some (((max n k).choose k : ℚ) * b.p ^ k * (1 - b.p) ^ (max n k - k)
            / (1 - (1 - b.p) ^ (max n k))) := by
  have hr : max n k < UNSIGNED_RANGE := max_lt hnr hkr
  have hm : max n k ≤ INT_MAX := by
    by_contra hgt
    have hneg := toInt_neg_of_gt_INT_MAX _ (not_le.mp hgt) hr
    exact hpdf (by simp only [binomial_pdf, hneg, true_or, if_true])
  have hkm : k ≤ max n k := le_max_right n k
  have hdom : ¬ (((max n k : Nat) : Int) < 0 ∨ b.p < 0 ∨ 1 < b.p
      ∨ ((max n k : Nat) : Int) < (k : Int)) := by
    intro h
    rcases h with h | h | h | h
    · exact absurd h (not_lt.mpr (Int.ofNat_nonneg _))
    · linarith
    · linarith
    · exact absurd (by exact_mod_cast h : max n k < k) (not_lt.mpr hkm)
  refine ⟨?_, ?_⟩
  · simp only [toInt_of_le_INT_MAX _ hm, binomial_pdf, if_neg hdom, Int.toNat_ofNat]
  · rw [getDensity_of_le_INT_MAX b k n hk hm hp0 hp1, mul_one_div]

/-- Witness for C1: `k = 1`, `n = 3`, `p = 1/2` gives `3/7`. -/
theorem getDensity_eq_truncated_binomial_witness :
    (ZTBIN.mk (1 / 2)).getDensity 1 3 = some (3 / 7) := by
  have h := (getDensity_eq_truncated_binomial (ZTBIN.mk (1 / 2)) 1 3 (by decide)
    (by decide) (by decide) (by norm_num) (by norm_num)
    (by norm_num [binomial_pdf, toInt, UNSIGNED_RANGE, INT_MAX]; simp)).2
  rw [h]
  norm_num [Nat.choose]

/-- C2. `getDensity(0, n)` is 0 for every `n` and every value of `p`. -/
theorem getDensity_zero (b : ZTBIN) (n : Nat) : b.getDensity 0 n = some 0 := by
  simp [ZTBIN.getDensity]

/-- C3, as stated, fails beyond the range of `int`: for `n = 2^31` and
`p = 1/2` every `getDensity(k, n)` with `1 ≤ k ≤ n` is 0, so the sum is 0. -/
theorem getDensity_sum_ne_one_at_int_overflow :
    (2147483648 < UNSIGNED_RANGE) ∧
    (∀ k ∈ Finset.Icc 1 2147483648, (ZTBIN.mk (1 / 2)).getDensity k 2147483648 = some 0) ∧
    ∑ k in Finset.Icc 1 2147483648, ((ZTBIN.mk (1 / 2)).getDensity k 2147483648).getD 0 ≠ 1 := by
  have hall : ∀ k ∈ Finset.Icc 1 2147483648,
      (ZTBIN.mk (1 / 2)).getDensity k 2147483648 = some 0 := by
    intro k hk
    rw [Finset.mem_Icc] at hk
    have hmax : max 2147483648 k = 2147483648 := max_eq_left hk.2
    apply getDensity_of_gt_INT_MAX _ _ _ hk.1
    · rw [hmax]; decide
    · rw [hmax]; decide
  refine ⟨by decide, hall, ?_⟩
  rw [Finset.sum_eq_zero (fun k hk => by rw [hall k hk]; rfl)]
  exact zero_ne_one

/-- C3, amended. For `1 ≤ n ≤ INT_MAX` and `p` in `(0,1)`, every
`getDensity(k, n)` with `1 ≤ k ≤ n` is a number and their sum is exactly 1: the
factor `1/(1 - (1-p)^n)` normalises the zero-truncated binomial. -/
theorem getDensity_sum_eq_one (b : ZTBIN) (n : Nat) (hn : 1 ≤ n) (hmax : n ≤ INT_MAX)
    (hp0 : 0 < b.p) (hp1 : b.p < 1) :
    (∀ k ∈ Finset.Icc 1 n, ∃ d, b.getDensity k n = some d) ∧
    ∑ k in Finset.Icc 1 n, (b.getDensity k n).getD 0 = 1 := by
  have hval : ∀ k ∈ Finset.Icc 1 n, b.getDensity k n
      = some ((n.choose k : ℚ) * b.p ^ k * (1 - b.p) ^ (n - k)
          * (1 / (1 - (1 - b.p) ^ n))) := by
    intro k hk
    rw [Finset.mem_Icc] at hk
    have hmk : max n k = n := max_eq_left hk.2
    have h := getDensity_of_le_INT_MAX b k n hk.1 (by rw [hmk]; exact hmax) hp0 hp1
    rw [hmk] at h
    exact h
  have hq : (1 - b.p) ^ n < 1 := pow_lt_one_of_unit _ _ (by linarith) (by linarith) hn
  have hne : (1 - (1 - b.p) ^ n) ≠ 0 := by linarith
  refine ⟨fun k hk => ⟨_, hval k hk⟩, ?_⟩
  rw [Finset.sum_congr rfl (fun k hk => by rw [hval k hk, Option.getD_some]),
    ← Finset.sum_mul, binomial_sum_Icc, mul_one_div, div_self hne]

/-- Witness for C3 amended: `n = 2`, `p = 1/2`; the densities `2/3` and `1/3`
add up to 1. -/
theorem getDensity_sum_eq_one_witness :
    ∑ k in Finset.Icc 1 2, ((ZTBIN.mk (1 / 2)).getDensity k 2).getD 0 = 1 :=
  (getDensity_sum_eq_one (ZTBIN.mk (1 / 2)) 2 (by decide) (by decide)
    (by norm_num) (by norm_num)).2

/-- The binary exponent is determined by the two powers of 2 around `|x|`. -/
theorem binade_eq (x : ℚ) (e : Int) (h1 : (2 : ℚ) ^ e ≤ |x|) (h2 : |x| < (2 : ℚ) ^ (e + 1)) :
    binade x = e := by
  have hpos : (0 : ℚ) < |x| := lt_of_lt_of_le (zpow_pos (by norm_num) e) h1
  have hle : e ≤ Int.log 2 |x| :=
    (Int.zpow_le_iff_le_log (by norm_num) hpos).mp (by exact_mod_cast h1)
  have hlt : Int.log 2 |x| < e + 1 :=
    (Int.lt_zpow_iff_log_lt (by norm_num) hpos).mp (by exact_mod_cast h2)
  unfold binade
  omega

/-- A number less than a half away from the integer `z` rounds to `z`. -/
theorem roundHalfEven_eq (y : ℚ) (z : Int) (h1 : (z : ℚ) - 1 / 2 < y)
    (h2 : y < (z : ℚ) + 1 / 2) : roundHalfEven y = z := by
  unfold roundHalfEven
  by_cases hy : (z : ℚ) ≤ y
  · have hf : ⌊y⌋ = z := Int.floor_eq_iff.mpr ⟨hy, by linarith⟩
    rw [hf, if_pos (by linarith)]
  · have hf : ⌊y⌋ = z - 1 :=
      Int.floor_eq_iff.mpr ⟨by push_cast; linarith, by push_cast; linarith⟩
    have hy' : y < z := not_le.mp hy
    rw [hf, if_neg (by push_cast; linarith), if_pos (by push_cast; linarith)]
    omega

/-- How to evaluate `roundToDouble`: with `2^e ≤ |x| < 2^(e+1)` and `x`, in
units of `2^(e-52)`, less than a half away from the integer `z`, the rounded
value is `z * 2^(e-52)`. -/
theorem roundToDouble_eq (x : ℚ) (e z : Int) (h1 : (2 : ℚ) ^ e ≤ |x|)
    (h2 : |x| < (2 : ℚ) ^ (e + 1))
    (h3 : (z : ℚ) - 1 / 2 < x / 2 ^ (e - 52)) (h4 : x / 2 ^ (e - 52) < (z : ℚ) + 1 / 2) :
    roundToDouble x = (z : ℚ) * 2 ^ (e - 52) := by
  have hx : x ≠ 0 := by
    intro h0
    rw [h0, abs_zero] at h1
    exact absurd h1 (not_le.mpr (zpow_pos (by norm_num) e))
  unfold roundToDouble
  rw [if_neg hx, binade_eq x e h1 h2, roundHalfEven_eq _ z h3 h4]

theorem roundToDouble_one : roundToDouble 1 = 1 := by
  rw [roundToDouble_eq 1 0 (2 ^ 52) (by norm_num) (by norm_num) (by norm_num) (by norm_num)]
  norm_num

/-- C4, as stated, fails in double arithmetic at `k = n = 1`.  For
`p = 2^-60` the difference `1.0 - p` rounds to `1.0`, the divisor
`1.0 - pow(1.0 - p, 1)` is `0.0` and the result is not a number in `[0,1]`
(an infinity).  For `p` the `double` nearest to `0.1` the result is
`1 + 2^-52 = 1.0000000000000002 > 1`.  Both values of `p` are of type `double`
and lie in `(0,1)`; on both the exact quotient is 1. -/
theorem getDensity_double_outside_unit_interval :
    ((0 : ℚ) < 1 / 2 ^ 60 ∧ (1 : ℚ) / 2 ^ 60 < 1 ∧ roundToDouble (1 / 2 ^ 60) = 1 / 2 ^ 60)
    ∧ (ZTBIN.mk (1 / 2 ^ 60)).getDensity_double 1 1 = none
    ∧ ¬ (∃ d, (ZTBIN.mk (1 / 2 ^ 60)).getDensity_double 1 1 = some d ∧ 0 ≤ d ∧ d ≤ 1)
    ∧ (ZTBIN.mk (1 / 2 ^ 60)).getDensity 1 1 = some 1
    ∧ ((0 : ℚ) < 3602879701896397 / 2 ^ 55 ∧ (3602879701896397 : ℚ) / 2 ^ 55 < 1
        ∧ roundToDouble (1 / 10) = 3602879701896397 / 2 ^ 55)
    ∧ (ZTBIN.mk (3602879701896397 / 2 ^ 55)).getDensity_double 1 1 = some (1 + 1 / 2 ^ 52)
    ∧ ¬ (∃ d, (ZTBIN.mk (3602879701896397 / 2 ^ 55)).getDensity_double 1 1 = some d
          ∧ 0 ≤ d ∧ d ≤ 1)
    ∧ (ZTBIN.mk (3602879701896397 / 2 ^ 55)).getDensity 1 1 = some 1 := by
  -- the case `p = 2^-60`
  have hpdf0 : binomial_pdf (toInt 1) (1 / 2 ^ 60) 1 = some (1 / 2 ^ 60) := by
    norm_num [binomial_pdf, toInt, UNSIGNED_RANGE, INT_MAX]
  have hp0 : roundToDouble (1 / 2 ^ 60) = 1 / 2 ^ 60 := by
    rw [roundToDouble_eq (1 / 2 ^ 60) (-60) (2 ^ 52) (by norm_num [abs_of_pos])
      (by norm_num [abs_of_pos]) (by norm_num) (by norm_num)]
    norm_num
  have hsub0 : roundToDouble (1 - 1 / 2 ^ 60) = 1 := by
    rw [roundToDouble_eq (1 - 1 / 2 ^ 60) (-1) (2 ^ 53) (by norm_num [abs_of_pos])
      (by norm_num [abs_of_pos]) (by norm_num) (by norm_num)]
    norm_num
  have hzero : roundToDouble (1 - 1) = 0 := by simp [roundToDouble]
  have hinf : (ZTBIN.mk (1 / 2 ^ 60)).getDensity_double 1 1 = none := by
    simp only [ZTBIN.getDensity_double, one_ne_zero, if_false, gt_iff_lt, lt_self_iff_false,
      hpdf0, hsub0, one_pow, roundToDouble_one, hzero, fdiv, if_true]
  have hexact0 : (ZTBIN.mk (1 / 2 ^ 60)).getDensity 1 1 = some 1 := by
    rw [getDensity_of_le_INT_MAX _ 1 1 (le_refl 1) (by decide) (by norm_num) (by norm_num)]
    norm_num
  -- the case `p = 0.1`
  have hpdf1 : binomial_pdf (toInt 1) (3602879701896397 / 2 ^ 55) 1
      = some (3602879701896397 / 2 ^ 55) := by
    norm_num [binomial_pdf, toInt, UNSIGNED_RANGE, INT_MAX]
  have hp1 : roundToDouble (1 / 10) = 3602879701896397 / 2 ^ 55 := by
    rw [roundToDouble_eq (1 / 10) (-4) 7205759403792794 (by norm_num [abs_of_pos])
      (by norm_num [abs_of_pos]) (by norm_num) (by norm_num)]
    norm_num
  have hres : roundToDouble (3602879701896397 / 2 ^ 55) = 3602879701896397 / 2 ^ 55 := by
    rw [roundToDouble_eq (3602879701896397 / 2 ^ 55) (-4) 7205759403792794
      (by norm_num [abs_of_pos]) (by norm_num [abs_of_pos]) (by norm_num) (by norm_num)]
    norm_num
  have hsub1 : roundToDouble (1 - 3602879701896397 / 2 ^ 55) = 8106479329266893 / 2 ^ 53 := by
    rw [roundToDouble_eq (1 - 3602879701896397 / 2 ^ 55) (-1) 8106479329266893
      (by norm_num [abs_of_pos]) (by norm_num [abs_of_pos]) (by norm_num) (by norm_num)]
    norm_num
  have hpow : roundToDouble ((8106479329266893 / 2 ^ 53) ^ 1) = 8106479329266893 / 2 ^ 53 := by
    rw [roundToDouble_eq ((8106479329266893 / 2 ^ 53) ^ 1) (-1) 8106479329266893
      (by norm_num [abs_of_pos]) (by norm_num [abs_of_pos]) (by norm_num) (by norm_num)]
    norm_num
  have hden : roundToDouble (1 - 8106479329266893 / 2 ^ 53) = 900719925474099 / 2 ^ 53 := by
    rw [roundToDouble_eq (1 - 8106479329266893 / 2 ^ 53) (-4) 7205759403792792
      (by norm_num [abs_of_pos]) (by norm_num [abs_of_pos]) (by norm_num) (by norm_num)]
    norm_num
  have hquot : roundToDouble (1 / (900719925474099 / 2 ^ 53)) = 5629499534213121 / 2 ^ 49 := by
    rw [roundToDouble_eq (1 / (900719925474099 / 2 ^ 53)) 3 5629499534213121
      (by norm_num [abs_of_pos]) (by norm_num [abs_of_pos]) (by norm_num) (by norm_num)]
    norm_num
  have hprod : roundToDouble (3602879701896397 / 2 ^ 55 * (5629499534213121 / 2 ^ 49))
      = 1 + 1 / 2 ^ 52 := by
    rw [roundToDouble_eq (3602879701896397 / 2 ^ 55 * (5629499534213121 / 2 ^ 49)) 0
      4503599627370497 (by norm_num [abs_of_pos]) (by norm_num [abs_of_pos]) (by norm_num)
      (by norm_num)]
    norm_num
  have hne : (900719925474099 : ℚ) / 2 ^ 53 ≠ 0 := by norm_num
  have hbig : (ZTBIN.mk (3602879701896397 / 2 ^ 55)).getDensity_double 1 1
      = some (1 + 1 / 2 ^ 52) := by
    simp only [ZTBIN.getDensity_double, one_ne_zero, if_false, gt_iff_lt, lt_self_iff_false,
      hpdf1, hsub1, hpow, hden, fdiv, if_neg hne, hquot, hres, hprod]
  have hexact1 : (ZTBIN.mk (3602879701896397 / 2 ^ 55)).getDensity 1 1 = some 1 := by
    rw [getDensity_of_le_INT_MAX _ 1 1 (le_refl 1) (by decide) (by norm_num) (by norm_num)]
    norm_num
  refine ⟨⟨by norm_num, by norm_num, hp0⟩, hinf, ?_, hexact0,
    ⟨by norm_num, by norm_num, hp1⟩, hbig, ?_, hexact1⟩
  · rintro ⟨d, hd, _, _⟩
    rw [hinf] at hd
    exact absurd hd (by simp)
  · rintro ⟨d, hd, _, hle⟩
    rw [hbig] at hd
    have hd' : 1 + 1 / 2 ^ 52 = d := Option.some.inj hd
    rw [← hd'] at hle
    norm_num at hle

/-- C4, amended. In exact arithmetic, for `n ≥ k ≥ 1` (of type `unsigned`) and
`p` in `(0,1)`, `getDensity(k, n)` is a number between 0 and 1. -/
theorem getDensity_mem_unit_interval (b : ZTBIN) (k n : Nat) (hk : 1 ≤ k) (hkn : k ≤ n)
    (hnr : n < UNSIGNED_RANGE) (hp0 : 0 < b.p) (hp1 : b.p < 1) :
    ∃ d, b.getDensity k n = some d ∧ 0 ≤ d ∧ d ≤ 1 := by
  have hmk : max n k = n := max_eq_left hkn
  by_cases hm : n ≤ INT_MAX
  · have h := getDensity_of_le_INT_MAX b k n hk (by rw [hmk]; exact hm) hp0 hp1
    rw [hmk] at h
    have hq0 : 0 < 1 - b.p := by linarith
    have hq : (1 - b.p) ^ n < 1 :=
      pow_lt_one_of_unit _ _ hq0 (by linarith) (le_trans hk hkn)
    have hden : 0 < 1 - (1 - b.p) ^ n := by linarith
    have hterm : ∀ j ∈ Finset.Icc 1 n,
        0 ≤ (n.choose j : ℚ) * b.p ^ j * (1 - b.p) ^ (n - j) := by
      intro j _
      have h1 : (0 : ℚ) ≤ (n.choose j : ℚ) := Nat.cast_nonneg _
      have h2 : 0 ≤ b.p ^ j := pow_nonneg hp0.le j
      have h3 : 0 ≤ (1 - b.p) ^ (n - j) := pow_nonneg hq0.le _
      exact mul_nonneg (mul_nonneg h1 h2) h3
    have hle : (n.choose k : ℚ) * b.p ^ k * (1 - b.p) ^ (n - k) ≤ 1 - (1 - b.p) ^ n := by
      rw [← binomial_sum_Icc]
      exact Finset.single_le_sum hterm (Finset.mem_Icc.mpr ⟨hk, hkn⟩)
    refine ⟨_, h, ?_, ?_⟩
    · rw [mul_one_div]
      exact div_nonneg (hterm k (Finset.mem_Icc.mpr ⟨hk, hkn⟩)) hden.le
    · rw [mul_one_div, div_le_one hden]
      exact hle
  · exact ⟨0, getDensity_of_gt_INT_MAX b k n hk (by rw [hmk]; exact not_le.mp hm)
      (by rw [hmk]; exact hnr), le_refl 0, zero_le_one⟩

/-- Witness for C4: `k = 2`, `n = 3`, `p = 1/2`. -/
theorem getDensity_mem_unit_interval_witness :
    ∃ d, (ZTBIN.mk (1 / 2)).getDensity 2 3 = some d ∧ 0 ≤ d ∧ d ≤ 1 :=
  getDensity_mem_unit_interval (ZTBIN.mk (1 / 2)) 2 3 (by decide) (by decide) (by decide)
    (by norm_num) (by norm_num)

/-! ## `updateP` -/

/-- An included position has `1 ≤ k ≤ n`. -/
theorem included_bounds (options : AppOptions) (x : Position)
    (h : included options x = true) : 1 ≤ x.truncCount ∧ x.truncCount ≤ x.n := by
  simp only [included, decide_eq_true_eq] at h
  exact ⟨h.2.1, le_max_right _ _⟩

/-- For an included position the quotient of the code, taken on `unsigned`
differences, is the quotient of the rational differences. -/
theorem fdiv_cast_sub (options : AppOptions) (x : Position)
    (h : included options x = true) :
    fdiv ((x.truncCount - 1 : Nat) : ℚ) ((x.n - 1 : Nat) : ℚ)
      = fdiv ((x.truncCount : ℚ) - 1) ((x.n : ℚ) - 1) := by
  obtain ⟨hk, hkn⟩ := included_bounds options x h
  rw [Nat.cast_sub hk, Nat.cast_sub (le_trans hk hkn), Nat.cast_one]

/-- The estimate of an included position with `n ≥ 2` lies in `[0,1]`. -/
theorem estimate_mem_unit_interval (options : AppOptions) (x : Position)
    (h : included options x = true) (hn : 2 ≤ x.n) : 0 ≤ estimate x ∧ estimate x ≤ 1 := by
  obtain ⟨hk, hkn⟩ := included_bounds options x h
  have hk' : (1 : ℚ) ≤ (x.truncCount : ℚ) := by exact_mod_cast hk
  have hkn' : (x.truncCount : ℚ) ≤ (x.n : ℚ) := by exact_mod_cast hkn
  have hn' : (2 : ℚ) ≤ (x.n : ℚ) := by exact_mod_cast hn
  have hden : (0 : ℚ) < (x.n : ℚ) - 1 := by linarith
  unfold estimate
  refine ⟨div_nonneg (by linarith) hden.le, ?_⟩
  rw [div_le_one hden]
  linarith

/-- With non-negative weights on the included positions, all of which have
`n ≥ 2`, the weighted sum of the estimates lies between 0 and the sum of the
weights. -/
theorem weightedEstimateSum_bounds (options : AppOptions) (l : List Position)
    (hw : ∀ x ∈ l, included options x = true → 0 ≤ x.posterior)
    (hn : ∀ x ∈ l, included options x = true → 2 ≤ x.n) :
    0 ≤ weightedEstimateSum options l
      ∧ weightedEstimateSum options l ≤ weightSum options l := by
  induction l with
  | nil => simp [weightedEstimateSum, weightSum]
  | cons x t ih =>
    have iht := ih (fun y hy => hw y (List.mem_cons_of_mem x hy))
      (fun y hy => hn y (List.mem_cons_of_mem x hy))
    by_cases hx : included options x = true
    · have hwx := hw x (List.mem_cons_self x t) hx
      obtain ⟨he0, he1⟩ := estimate_mem_unit_interval options x hx
        (hn x (List.mem_cons_self x t) hx)
      have h0 : 0 ≤ x.posterior * estimate x := mul_nonneg hwx he0
      have h1 : x.posterior * estimate x ≤ x.posterior := by
        calc x.posterior * estimate x ≤ x.posterior * 1 := mul_le_mul_of_nonneg_left he1 hwx
          _ = x.posterior := mul_one _
      simp only [weightedEstimateSum, weightSum, List.filter_cons_of_pos hx, List.map_cons,
        List.sum_cons] at iht ⊢
      exact ⟨by linarith [iht.1], by linarith [iht.2]⟩
    · simp only [weightedEstimateSum, weightSum, List.filter_cons_of_neg hx] at iht ⊢
      exact iht

/-- With non-negative weights on the included positions, the sum of the
weights is non-negative, and positive as soon as one of them is. -/
theorem weightSum_pos (options : AppOptions) (l : List Position)
    (hw : ∀ x ∈ l, included options x = true → 0 ≤ x.posterior) :
    0 ≤ weightSum options l
      ∧ ((∃ x ∈ l, included options x = true ∧ 0 < x.posterior) → 0 < weightSum options l) := by
  induction l with
  | nil => simp [weightSum]
  | cons x t ih =>
    have iht := ih (fun y hy => hw y (List.mem_cons_of_mem x hy))
    by_cases hx : included options x = true
    · have hwx := hw x (List.mem_cons_self x t) hx
      simp only [weightSum, List.filter_cons_of_pos hx, List.map_cons, List.sum_cons] at iht ⊢
      refine ⟨by linarith [iht.1], ?_⟩
      rintro ⟨y, hy, hyi, hyp⟩
      rcases List.mem_cons.mp hy with rfl | hyt
      · linarith [iht.1]
      · linarith [iht.2 ⟨y, hyt, hyi, hyp⟩]
    · simp only [weightSum, List.filter_cons_of_neg hx] at iht ⊢
      refine ⟨iht.1, ?_⟩
      rintro ⟨y, hy, hyi, hyp⟩
      rcases List.mem_cons.mp hy with rfl | hyt
      · exact absurd hyi hx
      · exact iht.2 ⟨y, hyt, hyi, hyp⟩

/-- The value stored by `updateP` is determined by the included positions. -/
theorem updateP_congr_filter (sp sp' : List (List (List ℚ))) (so so' : List (List Observations))
    (options : AppOptions)
    (h : (positions sp' so').filter (included options)
      = (positions sp so).filter (included options)) :
    ZTBIN.updateP sp' so' options = ZTBIN.updateP sp so options := by
  unfold ZTBIN.updateP
  rw [updateP_sums_eq_foldl, updateP_sums_eq_foldl, foldl_updateP_visit_filter options
    (positions sp' so'), foldl_updateP_visit_filter options (positions sp so), h]

/-- C5, as stated, fails at a position with `k = 0`: with threshold 10 and
maximal ratio 1, the position `k = 0`, `nEstimate = 20` meets both gates named
in the claim, yet the code leaves it out (its guard also demands `k > 0`); next
to a position `k = 2`, `nEstimate = 20`, both with posterior 1, the code stores
`p = 1/19` while the formula of the claim gives 0.  The code also tests the
threshold on `nEstimate`, not on `n = max(nEstimate, k)`: the position `k = 12`,
`nEstimate = 5` has `n = 12 ≥ 10` and is left out. -/
theorem updateP_ne_asSpecified_at_zero_count :
    includedAsSpecified ⟨10, 1, 0⟩ ⟨1, 0, 20⟩ = true
      ∧ included ⟨10, 1, 0⟩ ⟨1, 0, 20⟩ = false
      ∧ includedAsSpecified ⟨10, 1, 0⟩ ⟨1, 12, 5⟩ = true
      ∧ included ⟨10, 1, 0⟩ ⟨1, 12, 5⟩ = false
      ∧ positions [[[1, 1]], []] [[⟨[2, 0], [20, 20]⟩], []] = [⟨1, 2, 20⟩, ⟨1, 0, 20⟩]
      ∧ ZTBIN.updateP [[[1, 1]], []] [[⟨[2, 0], [20, 20]⟩], []] ⟨10, 1, 0⟩ = some (1 / 19)
      ∧ updateP_asSpecified ⟨10, 1, 0⟩ [⟨1, 2, 20⟩, ⟨1, 0, 20⟩] = some 0 := by
  refine ⟨?_, ?_, ?_, ?_, ?_, ?_, ?_⟩
  · norm_num [includedAsSpecified, Position.n]
  · norm_num [included, Position.n]
  · norm_num [includedAsSpecified, Position.n]
  · norm_num [included, Position.n]
  · rfl
  · norm_num [ZTBIN.updateP, updateP_sums, updateP_body, fdiv, Observations.length,
      List.range, List.range.loop]
  · norm_num [updateP_asSpecified, includedAsSpecified, Position.n, estimate, fdiv,
      List.filter]

/-- C5, amended. A position is included exactly when `nEstimate >=
nThresholdForP`, `k > 0` and `k/n <= maxkNratio` with `n = max(nEstimate, k)`.
The value stored by `updateP` is the same for two data sets whose included
positions coincide, in particular when a position that is excluded before and
after is changed; and when every included position has `n ≥ 2`, it is the sum
of `posterior * (k-1)/(n-1)` divided by the sum of the posteriors, both over the
included positions. -/
theorem updateP_weighted_average (sp : List (List (List ℚ))) (so : List (List Observations))
    (options : AppOptions) :
    (∀ sp' so', (positions sp' so').filter (included options)
        = (positions sp so).filter (included options) →
        ZTBIN.updateP sp' so' options = ZTBIN.updateP sp so options)
    ∧ (∀ sp' so' l₁ l₂ x y, positions sp so = l₁ ++ x :: l₂ →
        positions sp' so' = l₁ ++ y :: l₂ →
        included options x = false → included options y = false →
        ZTBIN.updateP sp' so' options = ZTBIN.updateP sp so options)
    ∧ ((∀ x ∈ positions sp so, included options x = true → 2 ≤ x.n) →
        ZTBIN.updateP sp so options
          = fdiv (weightedEstimateSum options (positions sp so))
              (weightSum options (positions sp so))) := by
  refine ⟨fun sp' so' h => updateP_congr_filter sp sp' so so' options h, ?_,
    fun hn => updateP_eq_fdiv_sums sp so options hn⟩
  intro sp' so' l₁ l₂ x y h h' hx hy
  apply updateP_congr_filter
  have hx' : ¬ included options x = true := by simp [hx]
  have hy' : ¬ included options y = true := by simp [hy]
  rw [h, h', List.filter_append, List.filter_append, List.filter_cons_of_neg hx',
    List.filter_cons_of_neg hy']

/-- Witness for C5 amended: positions `(k, nEstimate) = (2, 20)` and `(0, 20)`
with posteriors 1, threshold 10, maximal ratio 1: `p = (1/19) / 1`. -/
theorem updateP_weighted_average_witness :
    ZTBIN.updateP [[[1, 1]], []] [[⟨[2, 0], [20, 20]⟩], []] ⟨10, 1, 0⟩
      = fdiv (weightedEstimateSum ⟨10, 1, 0⟩ [⟨1, 2, 20⟩, ⟨1, 0, 20⟩])
          (weightSum ⟨10, 1, 0⟩ [⟨1, 2, 20⟩, ⟨1, 0, 20⟩]) :=
  (updateP_weighted_average [[[1, 1]], []] [[⟨[2, 0], [20, 20]⟩], []] ⟨10, 1, 0⟩).2.2
    (by
      intro x hx hi
      have hp : positions [[[1, 1]], []] [[⟨[2, 0], [20, 20]⟩], []]
          = [⟨1, 2, 20⟩, ⟨1, 0, 20⟩] := rfl
      rw [hp] at hx
      simp only [List.mem_cons, List.mem_singleton, List.not_mem_nil, or_false] at hx
      rcases hx with rfl | rfl
      · decide
      · exact absurd hi (by norm_num [included, Position.n]))

/-- C6. For a data set made of one observation `(k, nEstimate)` that passes
the guards and has posterior 1, on either strand, `updateP` stores the moment
estimator `(k-1)/(n-1)` with `n = max(nEstimate, k)` (for `n = 1` both are the
undefined quotient `0/0`). -/
theorem updateP_single_observation (options : AppOptions) (k nEstimate : Nat)
    (h : included options ⟨1, k, nEstimate⟩ = true) :
    ZTBIN.updateP [[[1]], []] [[⟨[k], [nEstimate]⟩], []] options
        = fdiv ((k : ℚ) - 1) (((max nEstimate k : Nat) : ℚ) - 1)
      ∧ ZTBIN.updateP [[], [[1]]] [[], [⟨[k], [nEstimate]⟩]] options
        = fdiv ((k : ℚ) - 1) (((max nEstimate k : Nat) : ℚ) - 1) := by
  have hp0 : positions [[[1]], []] [[⟨[k], [nEstimate]⟩], []] = [⟨1, k, nEstimate⟩] := rfl
  have hp1 : positions [[], [[1]]] [[], [⟨[k], [nEstimate]⟩]] = [⟨1, k, nEstimate⟩] := rfl
  have hc := fdiv_cast_sub options ⟨1, k, nEstimate⟩ h
  have key : ((List.foldl (updateP_visit options) (some 0, 0) [⟨1, k, nEstimate⟩]).1.bind
      (fun sum1 => fdiv sum1
        (List.foldl (updateP_visit options) (some 0, 0) [⟨1, k, nEstimate⟩]).2))
      = fdiv ((k : ℚ) - 1) (((max nEstimate k : Nat) : ℚ) - 1) := by
    rw [List.foldl_cons, List.foldl_nil, updateP_visit_included _ _ _ h, hc]
    simp only [Position.n, Option.some_bind, zero_add, one_mul]
    cases hq : fdiv ((k : ℚ) - 1) (((max nEstimate k : Nat) : ℚ) - 1) with
    | none => rfl
    | some e => simp [fdiv]
  unfold ZTBIN.updateP
  rw [updateP_sums_eq_foldl, updateP_sums_eq_foldl, hp0, hp1]
  exact ⟨key, key⟩

/-- Witness for C6: the observation `k = 5`, `nEstimate = 21` with threshold
10 and maximal ratio 1 gives `p = 4/20`. -/
theorem updateP_single_observation_witness :
    ZTBIN.updateP [[[1]], []] [[⟨[5], [21]⟩], []] ⟨10, 1, 0⟩
      = fdiv ((5 : ℚ) - 1) (((max 21 5 : Nat) : ℚ) - 1) :=
  (updateP_single_observation ⟨10, 1, 0⟩ 5 21 (by norm_num [included, Position.n])).1

/-- C7, as stated, fails: the single position `k = 1`, `nEstimate = 20` with
posterior 1 passes the guards (threshold 10, maximal ratio 1) and `updateP`
stores `p = 0`; the single position `k = 20`, `nEstimate = 20` gives `p = 1`.
Neither value lies strictly inside `(0,1)`. -/
theorem updateP_not_strictly_inside_unit_interval :
    included ⟨10, 1, 0⟩ ⟨1, 1, 20⟩ = true
      ∧ ZTBIN.updateP [[[1]], []] [[⟨[1], [20]⟩], []] ⟨10, 1, 0⟩ = some 0
      ∧ included ⟨10, 1, 0⟩ ⟨1, 20, 20⟩ = true
      ∧ ZTBIN.updateP [[[1]], []] [[⟨[20], [20]⟩], []] ⟨10, 1, 0⟩ = some 1
      ∧ ¬ (∃ p, ZTBIN.updateP [[[1]], []] [[⟨[1], [20]⟩], []] ⟨10, 1, 0⟩ = some p
            ∧ 0 < p ∧ p < 1) := by
  have h0 : ZTBIN.updateP [[[1]], []] [[⟨[1], [20]⟩], []] ⟨10, 1, 0⟩ = some 0 := by
    norm_num [ZTBIN.updateP, updateP_sums, updateP_body, fdiv, Observations.length,
      List.range, List.range.loop]
  have hi : included ⟨10, 1, 0⟩ ⟨1, 20, 20⟩ = true := by norm_num [included, Position.n]
  have hp : positions [[[1]], []] [[⟨[20], [20]⟩], []] = [⟨1, 20, 20⟩] := rfl
  refine ⟨?_, h0, hi, ?_, ?_⟩
  · norm_num [included, Position.n]
  · unfold ZTBIN.updateP
    rw [updateP_sums_eq_foldl, hp, List.foldl_cons, List.foldl_nil,
      updateP_visit_included _ _ _ hi]
    norm_num [fdiv, Position.n]
  · rintro ⟨p, hp, hpos, _⟩
    rw [h0] at hp
    have : (0 : ℚ) = p := Option.some.inj hp
    linarith

/-- C7, amended. For a weighted sample in which the included positions have
non-negative posteriors, at least one of them a positive one, and all of them
`n ≥ 2`, `updateP` stores a number `p` with `0 ≤ p ≤ 1`. -/
theorem updateP_mem_unit_interval (sp : List (List (List ℚ))) (so : List (List Observations))
    (options : AppOptions)
    (hw : ∀ x ∈ positions sp so, included options x = true → 0 ≤ x.posterior)
    (hex : ∃ x ∈ positions sp so, included options x = true ∧ 0 < x.posterior)
    (hn : ∀ x ∈ positions sp so, included options x = true → 2 ≤ x.n) :
    ∃ p, ZTBIN.updateP sp so options = some p ∧ 0 ≤ p ∧ p ≤ 1 := by
  have hpos := (weightSum_pos options _ hw).2 hex
  obtain ⟨hs0, hs1⟩ := weightedEstimateSum_bounds options _ hw hn
  refine ⟨weightedEstimateSum options (positions sp so) / weightSum options (positions sp so),
    ?_, div_nonneg hs0 hpos.le, (div_le_one hpos).mpr hs1⟩
  rw [updateP_eq_fdiv_sums sp so options hn, fdiv, if_neg hpos.ne']

/-- Witness for C7 amended: positions `(k, nEstimate) = (2, 20)` and `(20, 20)`
with posteriors 1 and 3, threshold 10, maximal ratio 1. -/
theorem updateP_mem_unit_interval_witness :
    ∃ p, ZTBIN.updateP [[[1, 3]], []] [[⟨[2, 20], [20, 20]⟩], []] ⟨10, 1, 0⟩ = some p
      ∧ 0 ≤ p ∧ p ≤ 1 := by
  have hp : positions [[[1, 3]], []] [[⟨[2, 20], [20, 20]⟩], []]
      = [⟨1, 2, 20⟩, ⟨3, 20, 20⟩] := rfl
  refine updateP_mem_unit_interval [[[1, 3]], []] [[⟨[2, 20], [20, 20]⟩], []] ⟨10, 1, 0⟩
    ?_ ?_ ?_
  · intro x hx _
    rw [hp] at hx
    simp only [List.mem_cons, List.mem_singleton, List.not_mem_nil, or_false] at hx
    rcases hx with rfl | rfl <;> norm_num
  · exact ⟨⟨1, 2, 20⟩, by rw [hp]; simp, by norm_num [included, Position.n], by norm_num⟩
  · intro x hx _
    rw [hp] at hx
    simp only [List.mem_cons, List.mem_singleton, List.not_mem_nil, or_false] at hx
    rcases hx with rfl | rfl <;> decide

/-- C8 at the failing input: with `nThresholdForP = 1` and `maxkNratio = 1`
the position `k = 1`, `nEstimate = 1` passes the guards, its divisor `n - 1` is
0, the quotient `(k-1)/(n-1)` is `0/0`, and the value stored in `p` is not a
number, also when a second position with `n ≥ 2` is present. -/
theorem updateP_divides_by_zero_at_n_one :
    included ⟨1, 1, 0⟩ ⟨1, 1, 1⟩ = true
      ∧ (⟨1, 1, 1⟩ : Position).n - 1 = 0
      ∧ fdiv ((1 - 1 : Nat) : ℚ) (((⟨1, 1, 1⟩ : Position).n - 1 : Nat) : ℚ) = none
      ∧ ZTBIN.updateP [[[1]], []] [[⟨[1], [1]⟩], []] ⟨1, 1, 0⟩ = none
      ∧ ZTBIN.updateP [[[1, 1]], []] [[⟨[1, 5], [1, 20]⟩], []] ⟨1, 1, 0⟩ = none := by
  have hi : included ⟨1, 1, 0⟩ ⟨1, 1, 1⟩ = true := by norm_num [included, Position.n]
  have hi2 : included ⟨1, 1, 0⟩ ⟨1, 5, 20⟩ = true := by norm_num [included, Position.n]
  have hp : positions [[[1, 1]], []] [[⟨[1, 5], [1, 20]⟩], []]
      = [⟨1, 1, 1⟩, ⟨1, 5, 20⟩] := rfl
  refine ⟨hi, ?_, ?_, ?_, ?_⟩
  · decide
  · norm_num [fdiv, Position.n]
  · norm_num [ZTBIN.updateP, updateP_sums, updateP_body, fdiv, Observations.length,
      List.range, List.range.loop]
  · unfold ZTBIN.updateP
    rw [updateP_sums_eq_foldl, hp, List.foldl_cons, List.foldl_cons, List.foldl_nil,
      updateP_visit_included _ _ _ hi2, updateP_visit_included _ _ _ hi]
    norm_num [fdiv, Position.n]

/-- With a threshold of at least 2, every included position has `n ≥ 2`. -/
theorem two_le_n_of_threshold (options : AppOptions) (h2 : 2 ≤ options.nThresholdForP)
    (x : Position) (h : included options x = true) : 2 ≤ x.n := by
  simp only [included, decide_eq_true_eq] at h
  have hq : (2 : ℚ) ≤ (x.nEstimate : ℚ) := le_trans h2 h.1
  have hn : 2 ≤ x.nEstimate := by exact_mod_cast hq
  exact le_trans hn (le_max_left _ _)

/-- C17. If `nThresholdForP ≥ 2`, all posteriors are non-negative and the
posteriors of the included positions have a positive sum, then every included
position has `n = max(nEstimate, k) ≥ 2` and an estimate `(k-1)/(n-1)` in
`[0,1]`, and `updateP` stores a number `p` with `0 ≤ p ≤ 1`, for every value of
`maxkNratio`. -/
theorem updateP_mem_unit_interval_of_threshold (sp : List (List (List ℚ)))
    (so : List (List Observations)) (options : AppOptions)
    (h2 : 2 ≤ options.nThresholdForP)
    (hw : ∀ x ∈ positions sp so, 0 ≤ x.posterior)
    (hpos : 0 < weightSum options (positions sp so)) :
    (∀ x ∈ positions sp so, included options x = true →
        2 ≤ x.n ∧ x.n = max x.nEstimate x.truncCount
          ∧ fdiv ((x.truncCount - 1 : Nat) : ℚ) ((x.n - 1 : Nat) : ℚ) = some (estimate x)
          ∧ 0 ≤ estimate x ∧ estimate x ≤ 1)
    ∧ ∃ p, ZTBIN.updateP sp so options = some p ∧ 0 ≤ p ∧ p ≤ 1 := by
  have hn : ∀ x ∈ positions sp so, included options x = true → 2 ≤ x.n :=
    fun x _ hx => two_le_n_of_threshold options h2 x hx
  refine ⟨fun x hx hi => ⟨hn x hx hi, rfl, fdiv_estimate options x hi (hn x hx hi),
    estimate_mem_unit_interval options x hi (hn x hx hi)⟩, ?_⟩
  obtain ⟨hs0, hs1⟩ := weightedEstimateSum_bounds options _ (fun x hx _ => hw x hx) hn
  refine ⟨weightedEstimateSum options (positions sp so) / weightSum options (positions sp so),
    ?_, div_nonneg hs0 hpos.le, (div_le_one hpos).mpr hs1⟩
  rw [updateP_eq_fdiv_sums sp so options hn, fdiv, if_neg hpos.ne']

/-- Witness for C17: positions `(k, nEstimate) = (2, 20)` and `(20, 20)` with
posteriors 1 and 3, threshold 10, maximal ratio 1. -/
theorem updateP_mem_unit_interval_of_threshold_witness :
    ∃ p, ZTBIN.updateP [[[1, 3]], []] [[⟨[2, 20], [20, 20]⟩], []] ⟨10, 1, 0⟩ = some p
      ∧ 0 ≤ p ∧ p ≤ 1 := by
  have hp : positions [[[1, 3]], []] [[⟨[2, 20], [20, 20]⟩], []]
      = [⟨1, 2, 20⟩, ⟨3, 20, 20⟩] := rfl
  have hi1 : included ⟨10, 1, 0⟩ ⟨1, 2, 20⟩ = true := by norm_num [included, Position.n]
  have hi2 : included ⟨10, 1, 0⟩ ⟨3, 20, 20⟩ = true := by norm_num [included, Position.n]
  refine (updateP_mem_unit_interval_of_threshold [[[1, 3]], []] [[⟨[2, 20], [20, 20]⟩], []]
    ⟨10, 1, 0⟩ (by norm_num) ?_ ?_).2
  · intro x hx
    rw [hp] at hx
    simp only [List.mem_cons, List.mem_singleton, List.not_mem_nil, or_false] at hx
    rcases hx with rfl | rfl <;> norm_num
  · rw [hp]
    simp only [weightSum, List.filter_cons_of_pos hi1, List.filter_cons_of_pos hi2,
      List.filter_nil, List.map_cons, List.map_nil, List.sum_cons, List.sum_nil]
    norm_num

/-! ## `checkOrderBin1Bin2` and `checkConvergence` -/

/-- C9. After `checkOrderBin1Bin2(bin1, bin2)` the parameter of `bin1` does
not exceed the parameter of `bin2`, for every pair of parameter values. -/
theorem checkOrderBin1Bin2_ordered (bin1 bin2 : ZTBIN) :
    (checkOrderBin1Bin2 bin1 bin2).1.p ≤ (checkOrderBin1Bin2 bin1 bin2).2.p := by
  unfold checkOrderBin1Bin2
  by_cases h : bin1.p > bin2.p
  · rw [if_pos h]
    exact le_of_lt h
  · rw [if_neg h]
    exact not_lt.mp h

/-- C18. For every pair `(p1, p2)`, `checkOrderBin1Bin2` leaves `bin1.p =
min(p1, p2)` and `bin2.p = max(p1, p2)`, changes nothing when `p1 ≤ p2`, and
applied to its own result changes nothing more. -/
theorem checkOrderBin1Bin2_min_max (bin1 bin2 : ZTBIN) :
    (checkOrderBin1Bin2 bin1 bin2).1.p = min bin1.p bin2.p
      ∧ (checkOrderBin1Bin2 bin1 bin2).2.p = max bin1.p bin2.p
      ∧ (bin1.p ≤ bin2.p → checkOrderBin1Bin2 bin1 bin2 = (bin1, bin2))
      ∧ checkOrderBin1Bin2 (checkOrderBin1Bin2 bin1 bin2).1 (checkOrderBin1Bin2 bin1 bin2).2
          = checkOrderBin1Bin2 bin1 bin2 := by
  by_cases h : bin1.p > bin2.p
  · have hno : ¬ bin2.p > bin1.p := not_lt.mpr (le_of_lt h)
    refine ⟨?_, ?_, ?_, ?_⟩
    · simp only [checkOrderBin1Bin2, if_pos h]
      exact (min_eq_right (le_of_lt h)).symm
    · simp only [checkOrderBin1Bin2, if_pos h]
      exact (max_eq_left (le_of_lt h)).symm
    · intro hle
      exact absurd h (not_lt.mpr hle)
    · simp only [checkOrderBin1Bin2, if_pos h, if_neg hno]
  · have hle : bin1.p ≤ bin2.p := not_lt.mp h
    refine ⟨?_, ?_, ?_, ?_⟩
    · simp only [checkOrderBin1Bin2, if_neg h]
      exact (min_eq_left hle).symm
    · simp only [checkOrderBin1Bin2, if_neg h]
      exact (max_eq_right hle).symm
    · intro _
      simp only [checkOrderBin1Bin2, if_neg h]
    · simp only [checkOrderBin1Bin2, if_neg h]

/-- Witness for C18: `p1 = 1/100 ≤ p2 = 1/10` is left as it is. -/
theorem checkOrderBin1Bin2_min_max_witness :
    checkOrderBin1Bin2 ⟨1 / 100⟩ ⟨1 / 10⟩ = (⟨1 / 100⟩, ⟨1 / 10⟩) :=
  (checkOrderBin1Bin2_min_max ⟨1 / 100⟩ ⟨1 / 10⟩).2.2.1 (by norm_num)

/-! ## `loadBinParams` and `printParams` -/

theorem getline_cons_isSome (delim c : Char) (rest : List Char) :
    ∃ str unread, getline delim (c :: rest) = some (str, unread) := by
  unfold getline
  by_cases h : c = delim
  · exact ⟨[], rest, by rw [if_pos h]⟩
  · rw [if_neg h]
    cases getline delim rest with
    | none => exact ⟨[c], [], rfl⟩
    | some r => exact ⟨c :: r.1, r.2, rfl⟩

/-- Whatever the lines are, the loop of `loadBinParams` runs to its end,
assigns to neither object and logs nothing. -/
theorem loadBinParams_loop_eq (strtod : List Char → ℚ) (lines : List (List Char))
    (bin1 bin2 : ZTBIN) (log : List LoadError) :
    loadBinParams_loop strtod lines bin1 bin2 log = ⟨true, bin1, bin2, log⟩ := by
  induction lines with
  | nil => rfl
  | cons line rest ih =>
    cases line with
    | nil => simp only [loadBinParams_loop, ne_eq, not_true_eq_false, if_false, ih]
    | cons c cs =>
      obtain ⟨str, unread, hg⟩ := getline_cons_isSome '\t' c cs
      simp only [loadBinParams_loop, ne_eq, reduceCtorEq, not_false_eq_true, if_true, hg,
        cstrPointerEq, Bool.false_eq_true, if_false, ih]

/-- C11 at the failing input.  For all values `p1`, `p2` written with
`printParams` and all values `q1`, `q2` held by the objects, `loadBinParams`
on the written text returns true and leaves `q1`, `q2` in place: no written
value is read back.  With `p1 = 0.01` and `p2 = 0.1` the text is
`bin1.p<TAB>0.01`, an empty line, `bin2.p<TAB>0.1`, an empty line; it has
both keys, and objects holding `0.5` still hold `0.5` afterwards. -/
theorem loadBinParams_does_not_read_back (strtod : List Char → ℚ) (showDouble : ℚ → List Char)
    (p1 p2 q1 q2 : ℚ) :
    loadBinParams strtod ⟨q1⟩ ⟨q2⟩
        (some (printParams showDouble (printParams showDouble [] ⟨p1⟩ 1) ⟨p2⟩ 2))
      = ⟨true, ⟨q1⟩, ⟨q2⟩, []⟩
    ∧ printParams (fun q => if q = 1 / 100 then ['0', '.', '0', '1'] else ['0', '.', '1'])
        (printParams (fun q => if q = 1 / 100 then ['0', '.', '0', '1'] else ['0', '.', '1'])
          [] ⟨1 / 100⟩ 1) ⟨1 / 10⟩ 2
      = ['b', 'i', 'n', '1', '.', 'p', '\t', '0', '.', '0', '1', '\n', '\n',
         'b', 'i', 'n', '2', '.', 'p', '\t', '0', '.', '1', '\n', '\n']
    ∧ hasKey KEY_BIN1_P ['b', 'i', 'n', '1', '.', 'p', '\t', '0', '.', '0', '1', '\n', '\n',
         'b', 'i', 'n', '2', '.', 'p', '\t', '0', '.', '1', '\n', '\n'] = true
    ∧ hasKey KEY_BIN2_P ['b', 'i', 'n', '1', '.', 'p', '\t', '0', '.', '0', '1', '\n', '\n',
         'b', 'i', 'n', '2', '.', 'p', '\t', '0', '.', '1', '\n', '\n'] = true
    ∧ loadBinParams strtod ⟨1 / 2⟩ ⟨1 / 2⟩
        (some ['b', 'i', 'n', '1', '.', 'p', '\t', '0', '.', '0', '1', '\n', '\n',
         'b', 'i', 'n', '2', '.', 'p', '\t', '0', '.', '1', '\n', '\n'])
      = ⟨true, ⟨1 / 2⟩, ⟨1 / 2⟩, []⟩
    ∧ (1 / 2 : ℚ) ≠ 1 / 100 ∧ (1 / 2 : ℚ) ≠ 1 / 10 := by
  refine ⟨?_, ?_, ?_, ?_, ?_, ?_, ?_⟩
  · simp only [loadBinParams, loadBinParams_loop_eq]
  · have h10 : ¬ ((1 : ℚ) / 10 = 1 / 100) := by norm_num
    simp only [printParams, if_true, if_neg h10]
    rfl
  · decide
  · decide
  · simp only [loadBinParams, loadBinParams_loop_eq]
  · norm_num
  · norm_num

/-- C12. For a parameter file that can be opened and lacks the key `bin1.p`,
`loadBinParams` returns true and leaves `bin1` as it was; likewise for
`bin2.p` and `bin2`. -/
theorem loadBinParams_missing_key (strtod : List Char → ℚ) (bin1 bin2 : ZTBIN)
    (content : List Char) :
    (hasKey KEY_BIN1_P content = false →
        (loadBinParams strtod bin1 bin2 (some content)).ok = true
          ∧ (loadBinParams strtod bin1 bin2 (some content)).bin1 = bin1)
    ∧ (hasKey KEY_BIN2_P content = false →
        (loadBinParams strtod bin1 bin2 (some content)).ok = true
          ∧ (loadBinParams strtod bin1 bin2 (some content)).bin2 = bin2) := by
  have h : loadBinParams strtod bin1 bin2 (some content) = ⟨true, bin1, bin2, []⟩ := by
    simp only [loadBinParams, loadBinParams_loop_eq]
  rw [h]
  exact ⟨fun _ => ⟨rfl, rfl⟩, fun _ => ⟨rfl, rfl⟩⟩

/-- Witness for C12: the file `bin1.p<TAB>0.5<NEWLINE>` lacks `bin2.p`. -/
theorem loadBinParams_missing_key_witness :
    (loadBinParams (fun _ => 0) ⟨1 / 100⟩ ⟨1 / 10⟩
        (some ['b', 'i', 'n', '1', '.', 'p', '\t', '0', '.', '5', '\n'])).ok = true
      ∧ (loadBinParams (fun _ => 0) ⟨1 / 100⟩ ⟨1 / 10⟩
        (some ['b', 'i', 'n', '1', '.', 'p', '\t', '0', '.', '5', '\n'])).bin2 = ⟨1 / 10⟩ :=
  (loadBinParams_missing_key (fun _ => 0) ⟨1 / 100⟩ ⟨1 / 10⟩
    ['b', 'i', 'n', '1', '.', 'p', '\t', '0', '.', '5', '\n']).2 (by decide)

/-- C13 at the failing input: when the parameter file cannot be opened,
`loadBinParams` logs the error, and then returns true with both objects
unchanged. -/
theorem loadBinParams_unopened_file_returns_true (strtod : List Char → ℚ)
    (bin1 bin2 : ZTBIN) :
    loadBinParams strtod bin1 bin2 none
      = ⟨true, bin1, bin2, [LoadError.couldNotOpenFile]⟩ := by
  simp only [loadBinParams, loadBinParams_loop_eq]

/-! ## `parseCommandLine` and `doIt` -/

/-- The value `parseCommandLine` returns, and the options it leaves when it
returns `PARSE_OK`. -/
theorem parseCommandLine_ok_iff (options : CommandLineOptions) (cl : List CmdArg) :
    ((parseCommandLine options cl).1 = ParseResult.PARSE_OK ↔
        parse cl = ParseResult.PARSE_OK
          ∧ getOptionValueCount CmdArg.inValue cl = getOptionValueCount CmdArg.baiValue cl
          ∧ covariateFilesConflict (readFileOptions options cl) = false)
    ∧ ((parseCommandLine options cl).1 = ParseResult.PARSE_OK →
        (parseCommandLine options cl).2 = readSettings (readFileOptions options cl) cl) := by
  unfold parseCommandLine
  by_cases hp : parse cl = ParseResult.PARSE_OK
  · by_cases hc : getOptionValueCount CmdArg.inValue cl = getOptionValueCount CmdArg.baiValue cl
    · by_cases hf : covariateFilesConflict (readFileOptions options cl) = true
      · simp [hp, hc, hf]
      · simp [hp, hc, hf]
    · simp [hp, hc]
  · have hp' : parse cl = ParseResult.PARSE_ERROR := by
      unfold parse at hp ⊢
      split
      · rename_i h
        rw [if_pos h] at hp
        exact absurd rfl hp
      · rfl
    simp [hp']

/-- When the numbers of `-i` and `-bai` files differ, `parseCommandLine` does
not return `PARSE_OK`. -/
theorem parseCommandLine_count_mismatch (options : CommandLineOptions) (cl : List CmdArg)
    (h : getOptionValueCount CmdArg.inValue cl ≠ getOptionValueCount CmdArg.baiValue cl) :
    (parseCommandLine options cl).1 ≠ ParseResult.PARSE_OK :=
  fun hok => h ((parseCommandLine_ok_iff options cl).1.mp hok).2.1

/-- C14 at the failing input: three `-i` files with three `-bai` files (and
the required `-g`, `-o`), no covariate files.  The argument parse succeeds,
`repNo` is 3, both tests `repNo != getOptionValueCount(parser, "bai")` are
false, and `parseCommandLine` returns `PARSE_OK` with three replicates. -/
theorem parseCommandLine_accepts_three_replicates (options : CommandLineOptions) :
    parse [CmdArg.IN ['a'], CmdArg.BAI ['a'], CmdArg.IN ['b'], CmdArg.BAI ['b'],
        CmdArg.IN ['c'], CmdArg.BAI ['c'], CmdArg.GENOME ['g'], CmdArg.OUT ['o']]
      = ParseResult.PARSE_OK
    ∧ getOptionValueCount CmdArg.inValue
        [CmdArg.IN ['a'], CmdArg.BAI ['a'], CmdArg.IN ['b'], CmdArg.BAI ['b'],
        CmdArg.IN ['c'], CmdArg.BAI ['c'], CmdArg.GENOME ['g'], CmdArg.OUT ['o']] = 3
    ∧ (parseCommandLine (withoutCovariates options)
        [CmdArg.IN ['a'], CmdArg.BAI ['a'], CmdArg.IN ['b'], CmdArg.BAI ['b'],
        CmdArg.IN ['c'], CmdArg.BAI ['c'], CmdArg.GENOME ['g'], CmdArg.OUT ['o']]).1
      = ParseResult.PARSE_OK
    ∧ (parseCommandLine (withoutCovariates options)
        [CmdArg.IN ['a'], CmdArg.BAI ['a'], CmdArg.IN ['b'], CmdArg.BAI ['b'],
        CmdArg.IN ['c'], CmdArg.BAI ['c'], CmdArg.GENOME ['g'], CmdArg.OUT ['o']]).2.bamFileNames
      = [['a'], ['b'], ['c']] := by
  have hp : parse [CmdArg.IN ['a'], CmdArg.BAI ['a'], CmdArg.IN ['b'], CmdArg.BAI ['b'],
      CmdArg.IN ['c'], CmdArg.BAI ['c'], CmdArg.GENOME ['g'], CmdArg.OUT ['o']]
      = ParseResult.PARSE_OK := by decide
  have hok : (parseCommandLine (withoutCovariates options)
      [CmdArg.IN ['a'], CmdArg.BAI ['a'], CmdArg.IN ['b'], CmdArg.BAI ['b'],
      CmdArg.IN ['c'], CmdArg.BAI ['c'], CmdArg.GENOME ['g'], CmdArg.OUT ['o']]).1
      = ParseResult.PARSE_OK := by
    rw [(parseCommandLine_ok_iff _ _).1]
    refine ⟨hp, by decide, ?_⟩
    simp [covariateFilesConflict, readFileOptions, getOptionValue, optionValues,
      CmdArg.isValue, CmdArg.ibamValue, CmdArg.ibaiValue, withoutCovariates]
  refine ⟨hp, by decide, hok, ?_⟩
  rw [(parseCommandLine_ok_iff _ _).2 hok]
  simp [readSettings, readFileOptions, optionValues, CmdArg.inValue]

/-- After a successful parse every option value lies in its declared range. -/
theorem inRange_of_parse_ok (cl : List CmdArg) (h : parse cl = ParseResult.PARSE_OK)
    (a : CmdArg) (ha : a ∈ cl) : a.inRange = true := by
  unfold parse at h
  split at h
  · rename_i hc
    exact List.all_eq_true.mp hc.2.2.2.2 a ha
  · exact absurd h (by decide)

/-- A value that `getOptionValue` reads for `-bdwn` was given on the command
line. -/
theorem bdwn_mem_of_getLast (cl : List CmdArg) (v : Int)
    (h : (optionValues CmdArg.bdwnValue cl).getLast? = some v) : CmdArg.BDWN v ∈ cl := by
  have hm := List.mem_of_getLast?_eq_some h
  obtain ⟨a, ha, hv⟩ := List.mem_filterMap.mp hm
  cases a <;> simp only [CmdArg.bdwnValue, reduceCtorEq] at hv
  rw [Option.some.inj hv] at ha
  exact ha

/-- After a successful parse the value read for `-bdwn` into a non-zero preset
is not zero. -/
theorem getOptionValue_bdwn_ne_zero (cl : List CmdArg) (h : parse cl = ParseResult.PARSE_OK)
    (preset : Int) (hpre : preset ≠ 0) : getOptionValue preset CmdArg.bdwnValue cl ≠ 0 := by
  unfold getOptionValue
  cases hl : (optionValues CmdArg.bdwnValue cl).getLast? with
  | none => simpa using hpre
  | some v =>
    have hr := inRange_of_parse_ok cl h _ (bdwn_mem_of_getLast cl v hl)
    simp only [CmdArg.inRange, decide_eq_true_eq] at hr
    simp only [Option.getD_some]
    omega

/-- With `-bc 1` on an accepted command line, the four preset fields are the
preset values overwritten by the values given for `-bdwn`, `-b1p`, `-b2p`. -/
theorem bc_preset_fields (options : CommandLineOptions) (cl : List CmdArg)
    (hok : (parseCommandLine options cl).1 = ParseResult.PARSE_OK)
    (hbc : getOptionValue (0 : Int) CmdArg.bcValue cl = 1) :
    (parseCommandLine options cl).2.get_nThreshold = true
      ∧ (parseCommandLine options cl).2.bandwidthN = getOptionValue 100 CmdArg.bdwnValue cl
      ∧ (parseCommandLine options cl).2.p1 = getOptionValue (1 / 100) CmdArg.b1pValue cl
      ∧ (parseCommandLine options cl).2.p2 = getOptionValue (1 / 10) CmdArg.b2pValue cl := by
  have hparse := ((parseCommandLine_ok_iff options cl).1.mp hok).1
  have hne := getOptionValue_bdwn_ne_zero cl hparse 100 (by decide)
  rw [(parseCommandLine_ok_iff options cl).2 hok]
  refine ⟨?_, ?_, ?_, ?_⟩
  · simp only [readSettings, hbc, if_true, ite_self]
  · simp only [readSettings, hbc, if_true, if_neg hne]
  · simp only [readSettings, hbc, if_true]
  · simp only [readSettings, hbc, if_true]

/-- Reordering the command line keeps the values given for an option that
occurs at most once. -/
theorem optionValues_perm {α : Type} (sel : CmdArg → Option α) (cl cl' : List CmdArg)
    (hp : cl.Perm cl') (h1 : (optionValues sel cl).length ≤ 1) :
    optionValues sel cl' = optionValues sel cl := by
  have hperm : (optionValues sel cl).Perm (optionValues sel cl') := List.Perm.filterMap sel hp
  match hl : optionValues sel cl, h1 with
  | [], _ =>
    rw [hl] at hperm
    exact (List.Perm.nil_eq hperm).symm
  | [a], _ =>
    rw [hl] at hperm
    exact List.perm_singleton.mp hperm.symm

theorem getOptionValue_perm {α : Type} (val : α) (sel : CmdArg → Option α)
    (cl cl' : List CmdArg) (hp : cl.Perm cl') (h1 : (optionValues sel cl).length ≤ 1) :
    getOptionValue val sel cl' = getOptionValue val sel cl := by
  unfold getOptionValue
  rw [optionValues_perm sel cl cl' hp h1]

theorem getOptionValueCount_perm {α : Type} (sel : CmdArg → Option α) (cl cl' : List CmdArg)
    (hp : cl.Perm cl') : getOptionValueCount sel cl' = getOptionValueCount sel cl :=
  (List.Perm.length_eq (List.Perm.filterMap sel hp)).symm

theorem parse_perm (cl cl' : List CmdArg) (hp : cl.Perm cl') : parse cl' = parse cl := by
  have hall : cl'.all CmdArg.inRange = cl.all CmdArg.inRange := by
    rw [Bool.eq_iff_iff, List.all_eq_true, List.all_eq_true]
    exact ⟨fun h x hx => h x ((List.Perm.mem_iff hp).mp hx),
      fun h x hx => h x ((List.Perm.mem_iff hp).mpr hx)⟩
  simp only [parse, getOptionValueCount_perm _ cl cl' hp, hall]

/-- Reordering a command line on which no single-valued option is repeated
does not change whether `parseCommandLine` accepts it. -/
theorem parseCommandLine_ok_perm (options : CommandLineOptions) (cl cl' : List CmdArg)
    (hp : cl.Perm cl') (hone : givenAtMostOnce cl)
    (hok : (parseCommandLine options cl).1 = ParseResult.PARSE_OK) :
    (parseCommandLine options cl').1 = ParseResult.PARSE_OK := by
  obtain ⟨h1, h2, h3⟩ := (parseCommandLine_ok_iff options cl).1.mp hok
  obtain ⟨his, hibam, hibai, _, _, _, _⟩ := hone
  rw [(parseCommandLine_ok_iff options cl').1]
  refine ⟨by rw [parse_perm cl cl' hp]; exact h1, ?_, ?_⟩
  · rw [getOptionValueCount_perm _ cl cl' hp, getOptionValueCount_perm _ cl cl' hp]
    exact h2
  · simp only [covariateFilesConflict, readFileOptions] at h3 ⊢
    simp only [getOptionValue_perm _ _ cl cl' hp his, getOptionValue_perm _ _ cl cl' hp hibam,
      getOptionValue_perm _ _ cl cl' hp hibai]
    exact h3

/-- C15. On an accepted command line with `-bc 1`, `parseCommandLine` leaves
`get_nThreshold = true` and the presets `bandwidthN = 100`, `p1 = 0.01`,
`p2 = 0.1` wherever `-bdwn`, `-b1p`, `-b2p` is not given; a value given for one
of these options replaces the preset; and reordering the command line (no
single-valued option being repeated) changes neither the acceptance nor these
four fields. -/
theorem parseCommandLine_bc_preset (options : CommandLineOptions) (cl : List CmdArg)
    (hok : (parseCommandLine options cl).1 = ParseResult.PARSE_OK)
    (hbc : getOptionValue (0 : Int) CmdArg.bcValue cl = 1) :
    (parseCommandLine options cl).2.get_nThreshold = true
    ∧ (optionValues CmdArg.bdwnValue cl = [] → (parseCommandLine options cl).2.bandwidthN = 100)
    ∧ (optionValues CmdArg.b1pValue cl = [] → (parseCommandLine options cl).2.p1 = 1 / 100)
    ∧ (optionValues CmdArg.b2pValue cl = [] → (parseCommandLine options cl).2.p2 = 1 / 10)
    ∧ (∀ v, (optionValues CmdArg.bdwnValue cl).getLast? = some v →
        (parseCommandLine options cl).2.bandwidthN = v)
    ∧ (∀ v, (optionValues CmdArg.b1pValue cl).getLast? = some v →
        (parseCommandLine options cl).2.p1 = v)
    ∧ (∀ v, (optionValues CmdArg.b2pValue cl).getLast? = some v →
        (parseCommandLine options cl).2.p2 = v)
    ∧ (∀ cl', cl.Perm cl' → givenAtMostOnce cl →
        (parseCommandLine options cl').1 = ParseResult.PARSE_OK
        ∧ (parseCommandLine options cl').2.get_nThreshold
            = (parseCommandLine options cl).2.get_nThreshold
        ∧ (parseCommandLine options cl').2.bandwidthN
            = (parseCommandLine options cl).2.bandwidthN
        ∧ (parseCommandLine options cl').2.p1 = (parseCommandLine options cl).2.p1
        ∧ (parseCommandLine options cl').2.p2 = (parseCommandLine options cl).2.p2) := by
  obtain ⟨hn, hb, h1, h2⟩ := bc_preset_fields options cl hok hbc
  refine ⟨hn, ?_, ?_, ?_, ?_, ?_, ?_, ?_⟩
  · intro he
    rw [hb, getOptionValue, he]
    rfl
  · intro he
    rw [h1, getOptionValue, he]
    rfl
  · intro he
    rw [h2, getOptionValue, he]
    rfl
  · intro v hv
    rw [hb, getOptionValue, hv]
    rfl
  · intro v hv
    rw [h1, getOptionValue, hv]
    rfl
  · intro v hv
    rw [h2, getOptionValue, hv]
    rfl
  · intro cl' hp hone
    have hok' := parseCommandLine_ok_perm options cl cl' hp hone hok
    obtain ⟨_, _, _, hbc1, hbdwn1, hb1p1, hb2p1⟩ := hone
    have hbc' : getOptionValue (0 : Int) CmdArg.bcValue cl' = 1 := by
      rw [getOptionValue_perm _ _ cl cl' hp hbc1]
      exact hbc
    obtain ⟨hn', hb', h1', h2'⟩ := bc_preset_fields options cl' hok' hbc'
    refine ⟨hok', by rw [hn, hn'], ?_, ?_, ?_⟩
    · rw [hb, hb', getOptionValue_perm _ _ cl cl' hp hbdwn1]
    · rw [h1, h1', getOptionValue_perm _ _ cl cl' hp hb1p1]
    · rw [h2, h2', getOptionValue_perm _ _ cl cl' hp hb2p1]

/-- Witness for C15: the command line `-i a -bai a -g g -o o -bc 1 -b2p 0.03`
on the sample options: `p1` is the preset `0.01`, `p2` the given `0.03`. -/
theorem parseCommandLine_bc_preset_witness :
    (parseCommandLine sampleOptions [CmdArg.IN ['a'], CmdArg.BAI ['a'], CmdArg.GENOME ['g'],
        CmdArg.OUT ['o'], CmdArg.BC 1, CmdArg.B2P (3 / 100)]).2.p1 = 1 / 100
      ∧ (parseCommandLine sampleOptions [CmdArg.IN ['a'], CmdArg.BAI ['a'], CmdArg.GENOME ['g'],
        CmdArg.OUT ['o'], CmdArg.BC 1, CmdArg.B2P (3 / 100)]).2.p2 = 3 / 100 := by
  have hok : (parseCommandLine sampleOptions [CmdArg.IN ['a'], CmdArg.BAI ['a'],
      CmdArg.GENOME ['g'], CmdArg.OUT ['o'], CmdArg.BC 1, CmdArg.B2P (3 / 100)]).1
      = ParseResult.PARSE_OK := by
    rw [(parseCommandLine_ok_iff _ _).1]
    refine ⟨by decide, by decide, ?_⟩
    simp [covariateFilesConflict, readFileOptions, getOptionValue, optionValues,
      CmdArg.isValue, CmdArg.ibamValue, CmdArg.ibaiValue, sampleOptions]
  have h := parseCommandLine_bc_preset sampleOptions [CmdArg.IN ['a'], CmdArg.BAI ['a'],
    CmdArg.GENOME ['g'], CmdArg.OUT ['o'], CmdArg.BC 1, CmdArg.B2P (3 / 100)] hok (by decide)
  exact ⟨h.2.2.1 (by simp [optionValues, CmdArg.b1pValue]),
    h.2.2.2.2.2.2.1 (3 / 100) (by simp [optionValues, CmdArg.b2pValue])⟩

/-- A value that `getOptionValue` reads for `-g1kmin` was given on the command
line. -/
theorem g1kmin_mem_of_getLast (cl : List CmdArg) (v : ℚ)
    (h : (optionValues CmdArg.g1kminValue cl).getLast? = some v) : CmdArg.G1KMIN v ∈ cl := by
  have hm := List.mem_of_getLast?_eq_some h
  obtain ⟨a, ha, hv⟩ := List.mem_filterMap.mp hm
  cases a <;> simp only [CmdArg.g1kminValue, reduceCtorEq] at hv
  rw [Option.some.inj hv] at ha
  exact ha

/-- On every accepted command line that gives `-g1kmin` and leaves the run
without covariates, `doIt` hands on `g1_kMax = 1 < 1.5 ≤ g1_kMin`. -/
theorem doIt_options_g1_range_empty (options : CommandLineOptions) (cl : List CmdArg) (v : ℚ)
    (hok : (parseCommandLine options cl).1 = ParseResult.PARSE_OK)
    (hcov : (parseCommandLine options cl).2.useCov_RPKM = false)
    (hv : (optionValues CmdArg.g1kminValue cl).getLast? = some v) :
    (doIt_options (parseCommandLine options cl).2).g1_kMax = 1
      ∧ (doIt_options (parseCommandLine options cl).2).g1_kMin = v
      ∧ (3 / 2 : ℚ) ≤ v := by
  have hparse := ((parseCommandLine_ok_iff options cl).1.mp hok).1
  have hr := inRange_of_parse_ok cl hparse _ (g1kmin_mem_of_getLast cl v hv)
  simp only [CmdArg.inRange, decide_eq_true_eq] at hr
  have hmin : (parseCommandLine options cl).2.g1_kMin = v := by
    rw [(parseCommandLine_ok_iff options cl).2 hok]
    simp only [readSettings, getOptionValue, hv, Option.getD_some]
  simp only [doIt_options, hcov, Bool.false_eq_true, if_false]
  exact ⟨trivial, hmin, hr⟩

/-- C16 at the failing input: the command line `-i a -bai a -g g -o o
-g1kmin 2` on options without covariates is accepted; `parseCommandLine`
stores `g1_kMin = 2`, `doIt` overwrites `g1_kMax` with 1, and the range handed
to the fit has `g1_kMin > g1_kMax`. -/
theorem doIt_options_g1_range_invalid (options : CommandLineOptions) :
    (parseCommandLine (withoutCovariates options) [CmdArg.IN ['a'], CmdArg.BAI ['a'],
        CmdArg.GENOME ['g'], CmdArg.OUT ['o'], CmdArg.G1KMIN 2]).1 = ParseResult.PARSE_OK
    ∧ (doIt_options (parseCommandLine (withoutCovariates options) [CmdArg.IN ['a'],
        CmdArg.BAI ['a'], CmdArg.GENOME ['g'], CmdArg.OUT ['o'], CmdArg.G1KMIN 2]).2).g1_kMin = 2
    ∧ (doIt_options (parseCommandLine (withoutCovariates options) [CmdArg.IN ['a'],
        CmdArg.BAI ['a'], CmdArg.GENOME ['g'], CmdArg.OUT ['o'], CmdArg.G1KMIN 2]).2).g1_kMax = 1
    ∧ ¬ ((doIt_options (parseCommandLine (withoutCovariates options) [CmdArg.IN ['a'],
          CmdArg.BAI ['a'], CmdArg.GENOME ['g'], CmdArg.OUT ['o'], CmdArg.G1KMIN 2]).2).g1_kMin
        ≤ (doIt_options (parseCommandLine (withoutCovariates options) [CmdArg.IN ['a'],
          CmdArg.BAI ['a'], CmdArg.GENOME ['g'], CmdArg.OUT ['o'],
          CmdArg.G1KMIN 2]).2).g1_kMax) := by
  have hparse : parse [CmdArg.IN ['a'], CmdArg.BAI ['a'], CmdArg.GENOME ['g'],
      CmdArg.OUT ['o'], CmdArg.G1KMIN 2] = ParseResult.PARSE_OK := by
    simp [parse, getOptionValueCount, optionValues, CmdArg.inValue, CmdArg.baiValue,
      CmdArg.genomeValue, CmdArg.outValue, CmdArg.inRange]
    norm_num
  have hok : (parseCommandLine (withoutCovariates options) [CmdArg.IN ['a'], CmdArg.BAI ['a'],
      CmdArg.GENOME ['g'], CmdArg.OUT ['o'], CmdArg.G1KMIN 2]).1 = ParseResult.PARSE_OK := by
    rw [(parseCommandLine_ok_iff _ _).1]
    refine ⟨hparse, by decide, ?_⟩
    simp [covariateFilesConflict, readFileOptions, getOptionValue, optionValues,
      CmdArg.isValue, CmdArg.ibamValue, CmdArg.ibaiValue, withoutCovariates]
  have hcov : (parseCommandLine (withoutCovariates options) [CmdArg.IN ['a'], CmdArg.BAI ['a'],
      CmdArg.GENOME ['g'], CmdArg.OUT ['o'], CmdArg.G1KMIN 2]).2.useCov_RPKM = false := by
    rw [(parseCommandLine_ok_iff _ _).2 hok]
    simp [readSettings, readFileOptions, getOptionValue, optionValues,
      CmdArg.isValue, CmdArg.ibamValue, CmdArg.ibaiValue, withoutCovariates]
  obtain ⟨hmax, hmin, _⟩ := doIt_options_g1_range_empty (withoutCovariates options) _ 2 hok hcov
    (by simp [optionValues, CmdArg.g1kminValue])
  refine ⟨hok, hmin, hmax, ?_⟩
  rw [hmin, hmax]
  norm_num

end PureCLIP
